import Mathlib

/-
Verification of the `typescript-lru-cache` LRU cache (`src/LRUCache.ts`,
`src/LRUCacheNode.ts`) against its natural-language specification.

Modelling conventions:
* The doubly linked recency list (`head`/`tail` plus the `next`/`prev`
  pointers of the nodes) is represented by `LRUCache.list`, the list of
  nodes from head to tail.  Pointer surgery on a node that is linked into
  the chain is represented by removing that node's (under the cache
  invariant unique) occurrence, identified by its key.
* The JS `Map` used as `lookupTable` is represented by an association list
  in insertion order, with `Map.get`/`Map.set`/`Map.delete`/`Map.has`
  modelled by `mapGet`/`mapSet`/`mapDelete`/`mapHas`.
* `Date.now()` is modelled by an explicit `now : Int` argument to every
  operation that reads the clock.
* JS numbers appearing at validation boundaries are modelled by `JSNum`
  (an integer together with a NaN flag); numbers stored after validation
  are plain `Int`.
* Exceptions are modelled by `Except`/an `err` field; since a JS exception
  leaves already-performed mutations in place, operations that can throw
  mid-way (`set`) return the mutated state together with the error.
* The `onEntryEvicted` / `onEntryMarkedAsMostRecentlyUsed` callback
  invocations are modelled as an emitted list of `CacheEvent`s carrying
  exactly the argument object the source passes to the callback.
-/

set_option linter.unusedSectionVars false

namespace LRUModel

/-- A JavaScript number as the validation code observes it: either NaN or
an ordinary (here: integral) value.  `val` is irrelevant when `nan` is set;
a JS comparison `x <= 0` on a NaN is false, and the source always pairs it
with an explicit `Number.isNaN` check, which `nan` models. -/
structure JSNum where
  nan : Bool
  val : Int
  deriving DecidableEq

/-- Observable callback invocations: `evicted k v e` models
`onEntryEvicted({ key, value, isExpired })` (from `invokeOnEvicted`), and
`mru k v` models `onEntryMarkedAsMostRecentlyUsed({ key, value })` (from
`invokeOnEntryMarkedAsMostRecentlyUsed`). -/
inductive CacheEvent (K V : Type) where
  | evicted (key : K) (value : V) (isExpired : Bool)
  | mru (key : K) (value : V)
  deriving DecidableEq

/-- A node of the recency list (`LRUCacheNode`).  The `next`/`prev`
pointers are represented positionally by the cache's `list`; the remaining
fields are the node's immutable data.  A stored expiration has passed
validation, hence is a plain `Option Int`. -/
structure LRUCacheNode (K V : Type) where
  key : K
  value : V
  created : Int
  entryExpirationTimeInMS : Option Int
  deriving DecidableEq

/-- `LRUCacheNode.isExpired`: `typeof e === 'number' && Date.now() - created > e`. -/
def LRUCacheNode.isExpired (n : LRUCacheNode K V) (now : Int) : Bool :=
  match n.entryExpirationTimeInMS with
  | some t => now - n.created > t
  | none => false

/-- The `LRUCacheNode` constructor: validates the supplied
`entryExpirationTimeInMS` (`none` models `null`/absent, `some e` a number),
records `created = Date.now()`, and otherwise stores its arguments.  The
condition mirrors the source:
`typeof e === 'number' && (e <= 0 || Number.isNaN(e))`. -/
def LRUCacheNode.make (key : K) (value : V) (now : Int) (expiry : Option JSNum) :
    Except String (LRUCacheNode K V) :=
  match expiry with
  | some e =>
      if e.val ≤ 0 || e.nan then
        Except.error "entryExpirationTimeInMS must either be null (no expiry) or greater than 0"
      else
        Except.ok ⟨key, value, now, some e.val⟩
  | none => Except.ok ⟨key, value, now, none⟩

section MapModel

variable {K : Type} {α : Type} [DecidableEq K]

/-- JS `Map.prototype.get` on the association-list model. -/
def mapGet (m : List (K × α)) (k : K) : Option α :=
  (m.find? fun p => p.1 == k).map Prod.snd

/-- JS `Map.prototype.has`. -/
def mapHas (m : List (K × α)) (k : K) : Bool :=
  (m.find? fun p => p.1 == k).isSome

/-- JS `Map.prototype.set`: overwrite the slot in place if the key is
present, else append a new slot. -/
def mapSet (m : List (K × α)) (k : K) (v : α) : List (K × α) :=
  if mapHas m k then m.map (fun p => if p.1 == k then (k, v) else p) else m ++ [(k, v)]

/-- JS `Map.prototype.delete`: remove the slot for the key if present and
report whether it was present. -/
def mapDelete (m : List (K × α)) (k : K) : List (K × α) × Bool :=
  (m.eraseP (fun p => p.1 == k), mapHas m k)

end MapModel

/-- The `LRUCache` state: validated capacity (`maxSizeInternal`), validated
cache-level default expiration, the recency chain from head to tail
(modelling `head`/`tail`/`next`/`prev`), and the `lookupTable` map. -/
structure LRUCache (K V : Type) where
  maxSizeInternal : Int
  entryExpirationTimeInMS : Option Int
  list : List (LRUCacheNode K V)
  lookupTable : List (K × LRUCacheNode K V)
  deriving DecidableEq

/-- The `{key, value}` view produced by `mapNodeToEntry`. -/
structure LRUCacheEntry (K V : Type) where
  key : K
  value : V
  deriving DecidableEq

variable {K V : Type} [DecidableEq K]

/-- `mapNodeToEntry`: project a node to its public `{key, value}` entry. -/
def mapNodeToEntry (n : LRUCacheNode K V) : LRUCacheEntry K V :=
  ⟨n.key, n.value⟩

/-- The `LRUCache` constructor.  `maxSize?`: `none` models an absent option
(default 25).  `expiry?`: `none` models `null`/absent, `some e` a number.
Validation order and conditions follow the source constructor. -/
def LRUCache.create (maxSize? : Option JSNum) (expiry? : Option JSNum) :
    Except String (LRUCache K V) :=
  let m := maxSize?.getD ⟨false, 25⟩
  if m.nan || m.val ≤ 0 then Except.error "maxSize must be greater than 0."
  else
    match expiry? with
    | some e =>
        if e.val ≤ 0 || e.nan then
          Except.error "entryExpirationTimeInMS must either be null (no expiry) or greater than 0"
        else Except.ok ⟨m.val, some e.val, [], []⟩
    | none => Except.ok ⟨m.val, none, [], []⟩

/-- The `size` getter: `lookupTable.size`. -/
def LRUCache.size (c : LRUCache K V) : Nat :=
  c.lookupTable.length

/-- The `newest` getter: the head's entry, or null on an empty cache. -/
def LRUCache.newest (c : LRUCache K V) : Option (LRUCacheEntry K V) :=
  c.list.head?.map mapNodeToEntry

/-- The `oldest` getter: the tail's entry, or null on an empty cache. -/
def LRUCache.oldest (c : LRUCache K V) : Option (LRUCacheEntry K V) :=
  c.list.getLast?.map mapNodeToEntry

/-- `removeNodeFromList`: unlink the node from the recency chain (a no-op
when the node is not linked, e.g. a freshly constructed node). -/
def LRUCache.removeNodeFromList (c : LRUCache K V) (node : LRUCacheNode K V) : LRUCache K V :=
  { c with list := c.list.eraseP fun n => n.key == node.key }

/-- `setNodeAsHead`: unlink the node, link it in front of the current head,
and invoke `onEntryMarkedAsMostRecentlyUsed`. -/
def LRUCache.setNodeAsHead (c : LRUCache K V) (node : LRUCacheNode K V) :
    LRUCache K V × List (CacheEvent K V) :=
  let c' := c.removeNodeFromList node
  ({ c' with list := node :: c'.list }, [CacheEvent.mru node.key node.value])

/-- `removeNodeFromListAndLookupTable`: invoke `onEntryEvicted` (with the
node's `isExpired` at the current time), unlink the node, and delete its
key from the lookup table, returning `Map.delete`'s result. -/
def LRUCache.removeNodeFromListAndLookupTable (c : LRUCache K V) (node : LRUCacheNode K V)
    (now : Int) : LRUCache K V × Bool × List (CacheEvent K V) :=
  let ev := [CacheEvent.evicted node.key node.value (node.isExpired now)]
  let c' := c.removeNodeFromList node
  let d := mapDelete c'.lookupTable node.key
  ({ c' with lookupTable := d.1 }, d.2, ev)

/-- The loop body of `enforceSizeLimit`: starting from the tail, evict
nodes while one exists and `size > maxSizeInternal`.  The fuel argument
(instantiated with the chain length) bounds the walk along `prev`
pointers. -/
def LRUCache.enforceLoop (now : Int) : Nat → LRUCache K V → LRUCache K V × List (CacheEvent K V)
  | 0, c => (c, [])
  | fuel + 1, c =>
      match c.list.getLast? with
      | none => (c, [])
      | some node =>
          if (c.size : Int) > c.maxSizeInternal then
            let r := c.removeNodeFromListAndLookupTable node now
            let rest := LRUCache.enforceLoop now fuel r.1
            (rest.1, r.2.2 ++ rest.2)
          else (c, [])

/-- `enforceSizeLimit`: evict from the tail until `size ≤ maxSizeInternal`
or the chain is empty. -/
def LRUCache.enforceSizeLimit (c : LRUCache K V) (now : Int) :
    LRUCache K V × List (CacheEvent K V) :=
  LRUCache.enforceLoop now c.list.length c

/-- Outcome of an operation that can throw: `err` is the raised message (if
any), `state` the cache state when the operation finished or the exception
escaped, `events` the callback invocations made before that point. -/
structure OpResult (K V : Type) where
  err : Option String
  state : LRUCache K V
  events : List (CacheEvent K V)
  deriving DecidableEq

/-- The `maxSize` setter: validate, then assign `maxSizeInternal` and
enforce the size limit. -/
def LRUCache.setMaxSize (c : LRUCache K V) (value : JSNum) (now : Int) : OpResult K V :=
  if value.nan || value.val ≤ 0 then ⟨some "maxSize must be greater than 0.", c, []⟩
  else
    let c' := { c with maxSizeInternal := value.val }
    let r := c'.enforceSizeLimit now
    ⟨none, r.1, r.2⟩

/-- The `entryExpirationTimeInMS` reaching the node constructor in `set`:
the object spread `{entryExpirationTimeInMS: this..., ...entryOptions}`
keeps the cache default unless `entryOptions` supplies the property. -/
def resolvedExpiry (c : LRUCache K V) (entryExpiry? : Option (Option JSNum)) : Option JSNum :=
  match entryExpiry? with
  | some o => o
  | none => c.entryExpirationTimeInMS.map fun t => ⟨false, t⟩

/-- `LRUCache.set`.  `entryExpiry?` models the `entryExpirationTimeInMS`
property of `entryOptions`: outer `none` = property absent, so the
cache-level default applies; `some o` = property supplied with value `o`
(`o = none` models `null`, `o = some e` a number `e`).  Steps follow the
source: remove an existing node for the key (firing its eviction
callback), construct the new node (which may throw, after that removal),
link it as head, store it in the lookup table, then enforce the size
limit. -/
def LRUCache.set (c : LRUCache K V) (key : K) (value : V) (entryExpiry? : Option (Option JSNum))
    (now : Int) : OpResult K V :=
  let step1 : LRUCache K V × List (CacheEvent K V) :=
    match mapGet c.lookupTable key with
    | some node =>
        let r := c.removeNodeFromListAndLookupTable node now
        (r.1, r.2.2)
    | none => (c, [])
  match LRUCacheNode.make key value now (resolvedExpiry c entryExpiry?) with
  | Except.error e => ⟨some e, step1.1, step1.2⟩
  | Except.ok node =>
      let r2 := step1.1.setNodeAsHead node
      let c2 := { r2.1 with lookupTable := mapSet r2.1.lookupTable key node }
      let r3 := c2.enforceSizeLimit now
      ⟨none, r3.1, step1.2 ++ r2.2 ++ r3.2⟩

/-- `LRUCache.get`: miss returns null; an expired hit is evicted and
returns null; a live hit is promoted to head and its value returned. -/
def LRUCache.get (c : LRUCache K V) (key : K) (now : Int) :
    Option V × LRUCache K V × List (CacheEvent K V) :=
  match mapGet c.lookupTable key with
  | none => (none, c, [])
  | some node =>
      if node.isExpired now then
        let r := c.removeNodeFromListAndLookupTable node now
        (none, r.1, r.2.2)
      else
        let r := c.setNodeAsHead node
        (some node.value, r.1, r.2)

/-- `LRUCache.peek`: like `get` but a live hit is not promoted. -/
def LRUCache.peek (c : LRUCache K V) (key : K) (now : Int) :
    Option V × LRUCache K V × List (CacheEvent K V) :=
  match mapGet c.lookupTable key with
  | none => (none, c, [])
  | some node =>
      if node.isExpired now then
        let r := c.removeNodeFromListAndLookupTable node now
        (none, r.1, r.2.2)
      else (some node.value, c, [])

/-- `LRUCache.delete`: remove the entry for the key if present; returns
whether an entry was removed. -/
def LRUCache.delete (c : LRUCache K V) (key : K) (now : Int) :
    Bool × LRUCache K V × List (CacheEvent K V) :=
  match mapGet c.lookupTable key with
  | none => (false, c, [])
  | some node =>
      let r := c.removeNodeFromListAndLookupTable node now
      (r.2.1, r.1, r.2.2)

/-- `LRUCache.has`: `lookupTable.has(key)`. -/
def LRUCache.has (c : LRUCache K V) (key : K) : Bool :=
  mapHas c.lookupTable key

/-- `LRUCache.clear`: null out head and tail and clear the lookup table. -/
def LRUCache.clear (c : LRUCache K V) : LRUCache K V :=
  ⟨c.maxSizeInternal, c.entryExpirationTimeInMS, [], []⟩

/-- Iterated `set` (one `set(k, vf k)` per key, no entry options), used to
state the capacity-eviction scenario of the spec. -/
def LRUCache.setAll (c : LRUCache K V) (ks : List K) (vf : K → V) (now : Int) :
    LRUCache K V × List (CacheEvent K V) :=
  match ks with
  | [] => (c, [])
  | k :: rest =>
      let r := c.set k (vf k) none now
      let r2 := r.state.setAll rest vf now
      (r2.1, r.events ++ r2.2)

/-- The loop of `LRUCache.find`: walk the chain from the head; an expired
node is evicted (firing its eviction callback) and the walk continues with
the `next` captured before removal; the first live node whose entry
satisfies the condition is promoted to head and its entry returned.  The
list argument is the remaining chain suffix to visit (the captured `next`
pointers traverse the original chain in order). -/
def LRUCache.findLoop (cond : LRUCacheEntry K V → Bool) (now : Int) :
    List (LRUCacheNode K V) → LRUCache K V →
      Option (LRUCacheEntry K V) × LRUCache K V × List (CacheEvent K V)
  | [], c => (none, c, [])
  | node :: rest, c =>
      if node.isExpired now then
        let r := c.removeNodeFromListAndLookupTable node now
        let t := LRUCache.findLoop cond now rest r.1
        (t.1, t.2.1, r.2.2 ++ t.2.2)
      else if cond (mapNodeToEntry node) then
        let r := c.setNodeAsHead node
        (some (mapNodeToEntry node), r.1, r.2)
      else
        LRUCache.findLoop cond now rest c

/-- `LRUCache.find`: search from the head, evicting expired entries along
the way; a match is marked most recently used.  The JS condition callback
(truthy test) is modelled as a Bool-valued predicate on entries. -/
def LRUCache.find (c : LRUCache K V) (cond : LRUCacheEntry K V → Bool) (now : Int) :
    Option (LRUCacheEntry K V) × LRUCache K V × List (CacheEvent K V) :=
  LRUCache.findLoop cond now c.list c

/-- The loop of `LRUCache.forEach`: walk the chain, evicting expired nodes
(index not advanced) and calling the callback with `(value, key, index)` on
live ones.  The callback is modelled as a pure observer: the loop collects
the argument triples passed to it. -/
def LRUCache.forEachLoop (now : Int) :
    List (LRUCacheNode K V) → LRUCache K V → Nat →
      List (V × K × Nat) × LRUCache K V × List (CacheEvent K V)
  | [], c, _ => ([], c, [])
  | node :: rest, c, index =>
      if node.isExpired now then
        let r := c.removeNodeFromListAndLookupTable node now
        let t := LRUCache.forEachLoop now rest r.1 index
        (t.1, t.2.1, r.2.2 ++ t.2.2)
      else
        let t := LRUCache.forEachLoop now rest c (index + 1)
        ((node.value, node.key, index) :: t.1, t.2.1, t.2.2)

/-- `LRUCache.forEach`: iterate from most to least recently used, skipping
(and removing) expired entries. -/
def LRUCache.forEach (c : LRUCache K V) (now : Int) :
    List (V × K × Nat) × LRUCache K V × List (CacheEvent K V) :=
  LRUCache.forEachLoop now c.list c 0

/-- The loop of the `values` generator, run to completion: expired nodes
are evicted, live values yielded in order. -/
def LRUCache.valuesLoop (now : Int) :
    List (LRUCacheNode K V) → LRUCache K V →
      List V × LRUCache K V × List (CacheEvent K V)
  | [], c => ([], c, [])
  | node :: rest, c =>
      if node.isExpired now then
        let r := c.removeNodeFromListAndLookupTable node now
        let t := LRUCache.valuesLoop now rest r.1
        (t.1, t.2.1, r.2.2 ++ t.2.2)
      else
        let t := LRUCache.valuesLoop now rest c
        (node.value :: t.1, t.2.1, t.2.2)

/-- The `values` generator, modelled as its full traversal: the yielded
values, the state after the iteration finishes, and the callbacks fired. -/
def LRUCache.values (c : LRUCache K V) (now : Int) :
    List V × LRUCache K V × List (CacheEvent K V) :=
  LRUCache.valuesLoop now c.list c

/-- The loop of the `keys` generator, run to completion. -/
def LRUCache.keysLoop (now : Int) :
    List (LRUCacheNode K V) → LRUCache K V →
      List K × LRUCache K V × List (CacheEvent K V)
  | [], c => ([], c, [])
  | node :: rest, c =>
      if node.isExpired now then
        let r := c.removeNodeFromListAndLookupTable node now
        let t := LRUCache.keysLoop now rest r.1
        (t.1, t.2.1, r.2.2 ++ t.2.2)
      else
        let t := LRUCache.keysLoop now rest c
        (node.key :: t.1, t.2.1, t.2.2)

/-- The `keys` generator, modelled as its full traversal. -/
def LRUCache.keys (c : LRUCache K V) (now : Int) :
    List K × LRUCache K V × List (CacheEvent K V) :=
  LRUCache.keysLoop now c.list c

/-- The loop of the `entries` generator, run to completion. -/
def LRUCache.entriesLoop (now : Int) :
    List (LRUCacheNode K V) → LRUCache K V →
      List (LRUCacheEntry K V) × LRUCache K V × List (CacheEvent K V)
  | [], c => ([], c, [])
  | node :: rest, c =>
      if node.isExpired now then
        let r := c.removeNodeFromListAndLookupTable node now
        let t := LRUCache.entriesLoop now rest r.1
        (t.1, t.2.1, r.2.2 ++ t.2.2)
      else
        let t := LRUCache.entriesLoop now rest c
        (mapNodeToEntry node :: t.1, t.2.1, t.2.2)

/-- The `entries` generator, modelled as its full traversal. -/
def LRUCache.entries (c : LRUCache K V) (now : Int) :
    List (LRUCacheEntry K V) × LRUCache K V × List (CacheEvent K V) :=
  LRUCache.entriesLoop now c.list c

/-- The loop of the `[Symbol.iterator]` generator, run to completion (its
body is identical to that of `entries`). -/
def LRUCache.symbolIteratorLoop (now : Int) :
    List (LRUCacheNode K V) → LRUCache K V →
      List (LRUCacheEntry K V) × LRUCache K V × List (CacheEvent K V)
  | [], c => ([], c, [])
  | node :: rest, c =>
      if node.isExpired now then
        let r := c.removeNodeFromListAndLookupTable node now
        let t := LRUCache.symbolIteratorLoop now rest r.1
        (t.1, t.2.1, r.2.2 ++ t.2.2)
      else
        let t := LRUCache.symbolIteratorLoop now rest c
        (mapNodeToEntry node :: t.1, t.2.1, t.2.2)

/-- The `[Symbol.iterator]` generator, modelled as its full traversal. -/
def LRUCache.symbolIterator (c : LRUCache K V) (now : Int) :
    List (LRUCacheEntry K V) × LRUCache K V × List (CacheEvent K V) :=
  LRUCache.symbolIteratorLoop now c.list c

/-- Modelled from the spec: the value-copy (clone) handling of
`LRUCacheNode` is missing from src — the node class there ignores the
`clone`/`cloneFn` options that `LRUCache` passes to it.  Per the spec, when
clone is enabled the constructor stores `cloneFn(value)`; this is the
store side. -/
def cloneStoredValue (clone : Bool) (cloneFn : V → V) (v : V) : V :=
  if clone then cloneFn v else v

/-- Modelled from the spec: the read side of the clone policy — when clone
is enabled the node's value getter returns `cloneFn(storedValue)`, so
`get`/`peek`/iteration hand out a copy. -/
def cloneReadValue (clone : Bool) (cloneFn : V → V) (stored : V) : V :=
  if clone then cloneFn stored else stored

/-- A heap value with observable identity: `ref` models the JS object
reference, `data` its structural content.  Used to express "equal but
distinct object" for the clone policy. -/
structure RefVal (A : Type) where
  ref : Nat
  data : A
  deriving DecidableEq

/-- Structural consistency between the recency chain and the lookup table:
keys are unique in both, every table slot holds a node that is linked in
the chain under its own key, and every linked node is indexed. -/
def Consistent (c : LRUCache K V) : Prop :=
  (c.list.map fun n => n.key).Nodup ∧
  ((c.lookupTable.map Prod.fst).Nodup ∧
  ((∀ p ∈ c.lookupTable, p.2 ∈ c.list ∧ p.2.key = p.1) ∧
  (∀ n ∈ c.list, (n.key, n) ∈ c.lookupTable)))

/-- The full invariant: structural consistency, a validated (positive)
capacity, and the size bound. -/
def Inv (c : LRUCache K V) : Prop :=
  Consistent c ∧ 0 < c.maxSizeInternal ∧ (c.size : Int) ≤ c.maxSizeInternal

/-- A stored cache-level expiration is validated: positive when present
(`getD 1` makes the absent case trivially positive). -/
def ExpiryValid (c : LRUCache K V) : Prop :=
  0 < c.entryExpirationTimeInMS.getD 1

instance (c : LRUCache K V) [DecidableEq V] : Decidable (Consistent c) := by
  unfold Consistent
  infer_instance

instance (c : LRUCache K V) [DecidableEq V] : Decidable (Inv c) := by
  unfold Inv
  infer_instance

instance (c : LRUCache K V) : Decidable (ExpiryValid c) := by
  unfold ExpiryValid
  infer_instance

section MapLemmas

variable {α : Type}

lemma mapGet_eq_none_iff {m : List (K × α)} {k : K} :
    mapGet m k = none ↔ ∀ p ∈ m, p.1 ≠ k := by
  unfold mapGet
  rw [Option.map_eq_none', List.find?_eq_none]
  simp

lemma mapGet_mem {m : List (K × α)} {k : K} {n : α} (h : mapGet m k = some n) : (k, n) ∈ m := by
  unfold mapGet at h
  obtain ⟨p, hf, hsnd⟩ := Option.map_eq_some'.mp h
  have hp : p.1 = k := by simpa using List.find?_some hf
  have hm := List.mem_of_find?_eq_some hf
  have : p = (k, n) := by
    cases p
    simp_all
  rwa [this] at hm

lemma mapGet_eq_some_of_mem {m : List (K × α)} {k : K} {n : α}
    (hnd : (m.map Prod.fst).Nodup) (hm : (k, n) ∈ m) : mapGet m k = some n := by
  induction m with
  | nil => cases hm
  | cons p t ih =>
      rw [List.map_cons, List.nodup_cons] at hnd
      rcases List.mem_cons.mp hm with h | h
      · unfold mapGet
        rw [List.find?_cons_of_pos _ (by simp [← h])]
        simp [← h]
      · have hne : p.1 ≠ k := by
          intro hk
          exact hnd.1 (hk ▸ List.mem_map_of_mem Prod.fst h)
        unfold mapGet
        rw [List.find?_cons_of_neg _ (by simp [hne])]
        exact ih hnd.2 h

lemma mem_unique_of_nodup_keys {m : List (K × α)} {k : K} {a b : α}
    (hnd : (m.map Prod.fst).Nodup) (h1 : (k, a) ∈ m) (h2 : (k, b) ∈ m) : a = b := by
  have ha := mapGet_eq_some_of_mem hnd h1
  have hb := mapGet_eq_some_of_mem hnd h2
  rw [ha] at hb
  exact (Option.some.injEq _ _).mp hb

lemma mapHas_eq_false_iff {m : List (K × α)} {k : K} :
    mapHas m k = false ↔ mapGet m k = none := by
  unfold mapHas mapGet
  cases m.find? fun p => p.1 == k <;> simp

lemma mapHas_eq_true_iff {m : List (K × α)} {k : K} :
    mapHas m k = true ↔ ∃ n, mapGet m k = some n := by
  unfold mapHas mapGet
  cases m.find? fun p => p.1 == k <;> simp

lemma mapSet_of_absent {m : List (K × α)} {k : K} (v : α) (h : mapGet m k = none) :
    mapSet m k v = m ++ [(k, v)] := by
  unfold mapSet
  rw [mapHas_eq_false_iff.mpr h]
  simp

end MapLemmas

section ErasePLemmas

variable {α : Type}

lemma nodeKey_eraseP_mem {l : List (LRUCacheNode K V)} {k : K} {a : LRUCacheNode K V}
    (hne : a.key ≠ k) (hm : a ∈ l) : a ∈ l.eraseP fun n => n.key == k := by
  induction l with
  | nil => cases hm
  | cons b t ih =>
      by_cases hb : b.key = k
      · rw [List.eraseP_cons_of_pos (by simp [hb])]
        rcases List.mem_cons.mp hm with rfl | h
        · exact absurd hb hne
        · exact h
      · rw [List.eraseP_cons_of_neg (by simp [hb])]
        rcases List.mem_cons.mp hm with rfl | h
        · exact List.mem_cons_self _ _
        · exact List.mem_cons_of_mem _ (ih h)

lemma nodeKey_eraseP_ne {l : List (LRUCacheNode K V)} {k : K}
    (hnd : (l.map fun n => n.key).Nodup) :
    ∀ a ∈ l.eraseP (fun n => n.key == k), a.key ≠ k := by
  induction l with
  | nil => intro a ha; cases ha
  | cons b t ih =>
      rw [List.map_cons, List.nodup_cons] at hnd
      by_cases hb : b.key = k
      · rw [List.eraseP_cons_of_pos (by simp [hb])]
        intro a ha hak
        exact hnd.1 (by rw [hb, ← hak]; exact List.mem_map_of_mem _ ha)
      · rw [List.eraseP_cons_of_neg (by simp [hb])]
        intro a ha
        rcases List.mem_cons.mp ha with rfl | h
        · exact hb
        · exact ih hnd.2 a h

lemma pairFst_eraseP_mem {m : List (K × α)} {k : K} {p : K × α}
    (hne : p.1 ≠ k) (hm : p ∈ m) : p ∈ m.eraseP fun q => q.1 == k := by
  induction m with
  | nil => cases hm
  | cons b t ih =>
      by_cases hb : b.1 = k
      · rw [List.eraseP_cons_of_pos (by simp [hb])]
        rcases List.mem_cons.mp hm with rfl | h
        · exact absurd hb hne
        · exact h
      · rw [List.eraseP_cons_of_neg (by simp [hb])]
        rcases List.mem_cons.mp hm with rfl | h
        · exact List.mem_cons_self _ _
        · exact List.mem_cons_of_mem _ (ih h)

lemma pairFst_eraseP_ne {m : List (K × α)} {k : K}
    (hnd : (m.map Prod.fst).Nodup) :
    ∀ p ∈ m.eraseP (fun q => q.1 == k), p.1 ≠ k := by
  induction m with
  | nil => intro p hp; cases hp
  | cons b t ih =>
      rw [List.map_cons, List.nodup_cons] at hnd
      by_cases hb : b.1 = k
      · rw [List.eraseP_cons_of_pos (by simp [hb])]
        intro p hp hpk
        exact hnd.1 (by rw [hb, ← hpk]; exact List.mem_map_of_mem _ hp)
      · rw [List.eraseP_cons_of_neg (by simp [hb])]
        intro p hp
        rcases List.mem_cons.mp hp with rfl | h
        · exact hb
        · exact ih hnd.2 p h

end ErasePLemmas

section OpShape

lemma remove_state_eq (c : LRUCache K V) (node : LRUCacheNode K V) (now : Int) :
    (c.removeNodeFromListAndLookupTable node now).1 =
      ⟨c.maxSizeInternal, c.entryExpirationTimeInMS,
        c.list.eraseP (fun n => n.key == node.key),
        c.lookupTable.eraseP (fun p => p.1 == node.key)⟩ := rfl

lemma remove_events_eq (c : LRUCache K V) (node : LRUCacheNode K V) (now : Int) :
    (c.removeNodeFromListAndLookupTable node now).2.2 =
      [CacheEvent.evicted node.key node.value (node.isExpired now)] := rfl

lemma remove_flag_eq (c : LRUCache K V) (node : LRUCacheNode K V) (now : Int) :
    (c.removeNodeFromListAndLookupTable node now).2.1 = mapHas c.lookupTable node.key := rfl

lemma setNodeAsHead_eq (c : LRUCache K V) (node : LRUCacheNode K V) :
    c.setNodeAsHead node =
      ({ c with list := node :: c.list.eraseP (fun n => n.key == node.key) },
        [CacheEvent.mru node.key node.value]) := rfl

lemma get_miss {c : LRUCache K V} {key : K} (now : Int)
    (h : mapGet c.lookupTable key = none) : c.get key now = (none, c, []) := by
  unfold LRUCache.get
  rw [h]

lemma get_hit_expired {c : LRUCache K V} {key : K} {node : LRUCacheNode K V} {now : Int}
    (h : mapGet c.lookupTable key = some node) (he : node.isExpired now = true) :
    c.get key now =
      (none, (c.removeNodeFromListAndLookupTable node now).1,
        (c.removeNodeFromListAndLookupTable node now).2.2) := by
  unfold LRUCache.get
  rw [h]
  simp [he]

lemma get_hit_live {c : LRUCache K V} {key : K} {node : LRUCacheNode K V} {now : Int}
    (h : mapGet c.lookupTable key = some node) (he : node.isExpired now = false) :
    c.get key now =
      (some node.value, (c.setNodeAsHead node).1, (c.setNodeAsHead node).2) := by
  unfold LRUCache.get
  rw [h]
  simp [he]

lemma peek_miss {c : LRUCache K V} {key : K} (now : Int)
    (h : mapGet c.lookupTable key = none) : c.peek key now = (none, c, []) := by
  unfold LRUCache.peek
  rw [h]

lemma peek_hit_expired {c : LRUCache K V} {key : K} {node : LRUCacheNode K V} {now : Int}
    (h : mapGet c.lookupTable key = some node) (he : node.isExpired now = true) :
    c.peek key now =
      (none, (c.removeNodeFromListAndLookupTable node now).1,
        (c.removeNodeFromListAndLookupTable node now).2.2) := by
  unfold LRUCache.peek
  rw [h]
  simp [he]

lemma peek_hit_live {c : LRUCache K V} {key : K} {node : LRUCacheNode K V} {now : Int}
    (h : mapGet c.lookupTable key = some node) (he : node.isExpired now = false) :
    c.peek key now = (some node.value, c, []) := by
  unfold LRUCache.peek
  rw [h]
  simp [he]

lemma delete_miss {c : LRUCache K V} {key : K} (now : Int)
    (h : mapGet c.lookupTable key = none) : c.delete key now = (false, c, []) := by
  unfold LRUCache.delete
  rw [h]

lemma delete_hit {c : LRUCache K V} {key : K} {node : LRUCacheNode K V} (now : Int)
    (h : mapGet c.lookupTable key = some node) :
    c.delete key now =
      ((c.removeNodeFromListAndLookupTable node now).2.1,
        (c.removeNodeFromListAndLookupTable node now).1,
        (c.removeNodeFromListAndLookupTable node now).2.2) := by
  unfold LRUCache.delete
  rw [h]

end OpShape

section ConsistencyLemmas

lemma consistent_size_eq {c : LRUCache K V} (hc : Consistent c) :
    c.size = c.list.length := by
  obtain ⟨hl, ht, htm, hlm⟩ := hc
  have hperm : (c.lookupTable.map Prod.fst).Perm (c.list.map fun n => n.key) := by
    rw [List.perm_ext_iff_of_nodup ht hl]
    intro k
    constructor
    · intro hk
      obtain ⟨p, hp, hpk⟩ := List.mem_map.mp hk
      obtain ⟨hmem, hkey⟩ := htm p hp
      exact List.mem_map.mpr ⟨p.2, hmem, by rw [hkey, hpk]⟩
    · intro hk
      obtain ⟨n, hn, hnk⟩ := List.mem_map.mp hk
      exact List.mem_map.mpr ⟨(n.key, n), hlm n hn, hnk⟩
  have := hperm.length_eq
  simpa [LRUCache.size] using this

lemma consistent_remove {c : LRUCache K V} (hc : Consistent c) (k : K)
    (ms : Int) (e : Option Int) :
    Consistent ⟨ms, e, c.list.eraseP (fun n => n.key == k),
      c.lookupTable.eraseP (fun p => p.1 == k)⟩ := by
  obtain ⟨hl, ht, htm, hlm⟩ := hc
  refine ⟨?_, ?_, ?_, ?_⟩
  · exact ((List.eraseP_sublist _).map _).nodup hl
  · exact ((List.eraseP_sublist _).map _).nodup ht
  · intro p hp
    have hpm : p ∈ c.lookupTable := (List.eraseP_sublist _).subset hp
    obtain ⟨hmem, hkey⟩ := htm p hpm
    have hne : p.1 ≠ k := pairFst_eraseP_ne ht p hp
    exact ⟨nodeKey_eraseP_mem (by rw [hkey]; exact hne) hmem, hkey⟩
  · intro n hn
    have hnm : n ∈ c.list := (List.eraseP_sublist _).subset hn
    have hne : n.key ≠ k := nodeKey_eraseP_ne hl n hn
    exact pairFst_eraseP_mem hne (hlm n hnm)

lemma consistent_insert_fresh {c : LRUCache K V} (hc : Consistent c)
    {node : LRUCacheNode K V} (habs : mapGet c.lookupTable node.key = none)
    (ms : Int) (e : Option Int) :
    Consistent ⟨ms, e, node :: c.list, c.lookupTable ++ [(node.key, node)]⟩ := by
  obtain ⟨hl, ht, htm, hlm⟩ := hc
  have habs' : ∀ p ∈ c.lookupTable, p.1 ≠ node.key := mapGet_eq_none_iff.mp habs
  have hnotin : node.key ∉ c.list.map fun n => n.key := by
    intro hk
    obtain ⟨n, hn, hnk⟩ := List.mem_map.mp hk
    exact habs' (n.key, n) (hlm n hn) (by rw [hnk])
  refine ⟨?_, ?_, ?_, ?_⟩
  · exact List.nodup_cons.mpr ⟨hnotin, hl⟩
  · rw [List.map_append, List.nodup_append]
    refine ⟨ht, List.nodup_singleton _, ?_⟩
    intro k hk hk'
    have : k = node.key := by simpa using hk'
    obtain ⟨p, hp, hpk⟩ := List.mem_map.mp hk
    exact habs' p hp (by rw [hpk, this])
  · intro p hp
    rcases List.mem_append.mp hp with h | h
    · obtain ⟨hmem, hkey⟩ := htm p h
      exact ⟨List.mem_cons_of_mem _ hmem, hkey⟩
    · have : p = (node.key, node) := by simpa using h
      rw [this]
      exact ⟨List.mem_cons_self _ _, rfl⟩
  · intro n hn
    rcases List.mem_cons.mp hn with rfl | h
    · exact List.mem_append.mpr (Or.inr (by simp))
    · exact List.mem_append.mpr (Or.inl (hlm n h))

lemma consistent_promote {c : LRUCache K V} (hc : Consistent c)
    {node : LRUCacheNode K V} (hm : (node.key, node) ∈ c.lookupTable) :
    Consistent { c with list := node :: c.list.eraseP (fun n => n.key == node.key) } := by
  obtain ⟨hl, ht, htm, hlm⟩ := hc
  have hnode_mem : node ∈ c.list := (htm (node.key, node) hm).1
  refine ⟨?_, ht, ?_, ?_⟩
  · rw [List.map_cons, List.nodup_cons]
    constructor
    · intro hk
      obtain ⟨n, hn, hnk⟩ := List.mem_map.mp hk
      exact nodeKey_eraseP_ne hl n hn hnk
    · exact ((List.eraseP_sublist _).map _).nodup hl
  · intro p hp
    obtain ⟨hmem, hkey⟩ := htm p hp
    by_cases hpk : p.1 = node.key
    · have hpair : p = (node.key, node) := by
        have : p.2 = node := by
          refine mem_unique_of_nodup_keys ht ?_ hm
          have : p = (p.1, p.2) := rfl
          rw [hpk] at this
          rwa [← this]
        cases p
        simp_all
      rw [hpair]
      exact ⟨List.mem_cons_self _ _, rfl⟩
    · refine ⟨List.mem_cons_of_mem _ ?_, hkey⟩
      exact nodeKey_eraseP_mem (by rw [hkey]; exact hpk) hmem
  · intro n hn
    rcases List.mem_cons.mp hn with rfl | h
    · exact hm
    · exact hlm n ((List.eraseP_sublist _).subset h)

end ConsistencyLemmas

section EnforceLemmas

lemma enforceLoop_zero (now : Int) (c : LRUCache K V) :
    LRUCache.enforceLoop now 0 c = (c, []) := rfl

lemma enforceLoop_succ (now : Int) (fuel : Nat) (c : LRUCache K V) :
    LRUCache.enforceLoop now (fuel + 1) c =
      match c.list.getLast? with
      | none => (c, [])
      | some node =>
          if (c.size : Int) > c.maxSizeInternal then
            let r := c.removeNodeFromListAndLookupTable node now
            let rest := LRUCache.enforceLoop now fuel r.1
            (rest.1, r.2.2 ++ rest.2)
          else (c, []) := rfl

lemma enforceSizeLimit_eq (c : LRUCache K V) (now : Int) :
    c.enforceSizeLimit now = LRUCache.enforceLoop now c.list.length c := rfl

lemma enforceLoop_spec (now : Int) :
    ∀ (fuel : Nat) (c : LRUCache K V), Consistent c →
      Consistent (LRUCache.enforceLoop now fuel c).1 ∧
      (LRUCache.enforceLoop now fuel c).1.maxSizeInternal = c.maxSizeInternal ∧
      (LRUCache.enforceLoop now fuel c).1.entryExpirationTimeInMS = c.entryExpirationTimeInMS ∧
      (LRUCache.enforceLoop now fuel c).1.size ≤ c.size ∧
      (c.list.length ≤ fuel → 0 ≤ c.maxSizeInternal →
        ((LRUCache.enforceLoop now fuel c).1.size : Int) ≤ c.maxSizeInternal) := by
  intro fuel
  induction fuel with
  | zero =>
      intro c hc
      rw [enforceLoop_zero]
      refine ⟨hc, rfl, rfl, le_refl _, ?_⟩
      intro hlen hms
      have hnil : c.list = [] := List.length_eq_zero.mp (Nat.le_zero.mp hlen)
      have hz : c.size = 0 := by rw [consistent_size_eq hc, hnil]; rfl
      rw [hz]
      exact_mod_cast hms
  | succ fuel ih =>
      intro c hc
      cases hg : c.list.getLast? with
      | none =>
          have hnil : c.list = [] := List.getLast?_eq_none_iff.mp hg
          rw [enforceLoop_succ, hg]
          refine ⟨hc, rfl, rfl, le_refl _, ?_⟩
          intro _ hms
          have hz : c.size = 0 := by rw [consistent_size_eq hc, hnil]; rfl
          rw [hz]
          exact_mod_cast hms
      | some node =>
          by_cases hgt : (c.size : Int) > c.maxSizeInternal
          · rw [enforceLoop_succ, hg]
            simp only [hgt, if_true]
            have hnode_mem : node ∈ c.list := by
              obtain ⟨ys, hys⟩ := List.getLast?_eq_some_iff.mp hg
              rw [hys]
              simp
            have hpair : (node.key, node) ∈ c.lookupTable := hc.2.2.2 node hnode_mem
            have hrc : Consistent (c.removeNodeFromListAndLookupTable node now).1 := by
              rw [remove_state_eq]
              exact consistent_remove hc node.key _ _
            have hsize : (c.removeNodeFromListAndLookupTable node now).1.size + 1 = c.size := by
              rw [remove_state_eq]
              exact List.length_eraseP_add_one hpair (by simp)
            have hlen : (c.removeNodeFromListAndLookupTable node now).1.list.length + 1 =
                c.list.length := by
              rw [remove_state_eq]
              exact List.length_eraseP_add_one hnode_mem (by simp)
            obtain ⟨h1, h2, h3, h4, h5⟩ := ih (c.removeNodeFromListAndLookupTable node now).1 hrc
            have hmax : (c.removeNodeFromListAndLookupTable node now).1.maxSizeInternal =
                c.maxSizeInternal := by rw [remove_state_eq]
            have hexp : (c.removeNodeFromListAndLookupTable node now).1.entryExpirationTimeInMS =
                c.entryExpirationTimeInMS := by rw [remove_state_eq]
            refine ⟨h1, by rw [h2, hmax], by rw [h3, hexp], ?_, ?_⟩
            · calc (LRUCache.enforceLoop now fuel
                    (c.removeNodeFromListAndLookupTable node now).1).1.size
                  ≤ (c.removeNodeFromListAndLookupTable node now).1.size := h4
                _ ≤ c.size := by omega
            · intro hfl hms
              have hfl' : (c.removeNodeFromListAndLookupTable node now).1.list.length ≤ fuel := by
                omega
              have := h5 hfl' (by rw [hmax]; exact hms)
              rwa [hmax] at this
          · have hred : LRUCache.enforceLoop now (fuel + 1) c = (c, []) := by
              rw [enforceLoop_succ, hg]
              simp only [hgt, if_false]
            rw [hred]
            refine ⟨hc, rfl, rfl, le_refl _, ?_⟩
            intro _ _
            exact not_lt.mp hgt

lemma enforceSizeLimit_spec {c : LRUCache K V} (hc : Consistent c) (now : Int)
    (hms : 0 ≤ c.maxSizeInternal) :
    Consistent (c.enforceSizeLimit now).1 ∧
    (c.enforceSizeLimit now).1.maxSizeInternal = c.maxSizeInternal ∧
    (c.enforceSizeLimit now).1.entryExpirationTimeInMS = c.entryExpirationTimeInMS ∧
    ((c.enforceSizeLimit now).1.size : Int) ≤ c.maxSizeInternal := by
  obtain ⟨h1, h2, h3, _, h5⟩ := enforceLoop_spec now c.list.length c hc
  exact ⟨h1, h2, h3, h5 (le_refl _) hms⟩

/-- When the size is already within the limit, `enforceSizeLimit` is a
no-op. -/
lemma enforceSizeLimit_noop {c : LRUCache K V} (now : Int)
    (h : (c.size : Int) ≤ c.maxSizeInternal) :
    c.enforceSizeLimit now = (c, []) := by
  rw [enforceSizeLimit_eq]
  cases hl : c.list.length with
  | zero => rw [enforceLoop_zero]
  | succ fuel =>
      have hne : c.list ≠ [] := by
        intro hnil
        rw [hnil] at hl
        cases hl
      obtain ⟨node, hg⟩ := Option.isSome_iff_exists.mp (List.getLast?_isSome.mpr hne)
      rw [enforceLoop_succ, hg]
      have hgt : ¬ ((c.size : Int) > c.maxSizeInternal) := not_lt.mpr h
      simp only [hgt, if_false]

end EnforceLemmas

section SetLemmas

lemma make_ok_fields {key : K} {value : V} {now : Int} {e : Option JSNum}
    {node : LRUCacheNode K V}
    (h : LRUCacheNode.make key value now e = Except.ok node) :
    node.key = key ∧ node.value = value ∧ node.created = now := by
  cases e with
  | some x =>
      simp only [LRUCacheNode.make] at h
      by_cases hx : (decide (x.val ≤ 0) || x.nan) = true
      · rw [if_pos hx] at h
        cases h
      · rw [if_neg hx] at h
        injection h with h
        rw [← h]
        exact ⟨rfl, rfl, rfl⟩
  | none =>
      simp only [LRUCacheNode.make] at h
      injection h with h
      rw [← h]
      exact ⟨rfl, rfl, rfl⟩

lemma make_ok_none {key : K} {value : V} {now : Int} :
    LRUCacheNode.make key value now none = Except.ok ⟨key, value, now, none⟩ := rfl

lemma make_ok_valid {key : K} {value : V} {now : Int} {x : JSNum}
    (h1 : ¬ x.val ≤ 0) (h2 : x.nan = false) :
    LRUCacheNode.make key value now (some x) = Except.ok ⟨key, value, now, some x.val⟩ := by
  simp only [LRUCacheNode.make]
  rw [if_neg (by simp [h1, h2])]

lemma make_error_of_invalid {key : K} {value : V} {now : Int} {x : JSNum}
    (h : x.val ≤ 0 ∨ x.nan = true) :
    LRUCacheNode.make key value now (some x) =
      Except.error
        "entryExpirationTimeInMS must either be null (no expiry) or greater than 0" := by
  simp only [LRUCacheNode.make]
  rw [if_pos (by rcases h with h | h <;> simp [h])]

lemma set_error_present {c : LRUCache K V} {key : K} {value : V} {eo : Option (Option JSNum)}
    {now : Int} {node0 : LRUCacheNode K V} {e : String}
    (hcur : mapGet c.lookupTable key = some node0)
    (hmk : LRUCacheNode.make key value now (resolvedExpiry c eo) = Except.error e) :
    c.set key value eo now =
      ⟨some e, (c.removeNodeFromListAndLookupTable node0 now).1,
        (c.removeNodeFromListAndLookupTable node0 now).2.2⟩ := by
  simp only [LRUCache.set, hcur, hmk]

lemma set_error_absent {c : LRUCache K V} {key : K} {value : V} {eo : Option (Option JSNum)}
    {now : Int} {e : String}
    (hcur : mapGet c.lookupTable key = none)
    (hmk : LRUCacheNode.make key value now (resolvedExpiry c eo) = Except.error e) :
    c.set key value eo now = ⟨some e, c, []⟩ := by
  simp only [LRUCache.set, hcur, hmk]

lemma set_ok_present {c : LRUCache K V} {key : K} {value : V} {eo : Option (Option JSNum)}
    {now : Int} {node0 node : LRUCacheNode K V}
    (hcur : mapGet c.lookupTable key = some node0)
    (hmk : LRUCacheNode.make key value now (resolvedExpiry c eo) = Except.ok node) :
    c.set key value eo now =
      ⟨none,
        ({ ((c.removeNodeFromListAndLookupTable node0 now).1.setNodeAsHead node).1 with
            lookupTable :=
              mapSet ((c.removeNodeFromListAndLookupTable node0 now).1.setNodeAsHead
                node).1.lookupTable key node }.enforceSizeLimit now).1,
        (c.removeNodeFromListAndLookupTable node0 now).2.2 ++
          ((c.removeNodeFromListAndLookupTable node0 now).1.setNodeAsHead node).2 ++
          ({ ((c.removeNodeFromListAndLookupTable node0 now).1.setNodeAsHead node).1 with
              lookupTable :=
                mapSet ((c.removeNodeFromListAndLookupTable node0 now).1.setNodeAsHead
                  node).1.lookupTable key node }.enforceSizeLimit now).2⟩ := by
  simp only [LRUCache.set, hcur, hmk]

lemma set_ok_absent {c : LRUCache K V} {key : K} {value : V} {eo : Option (Option JSNum)}
    {now : Int} {node : LRUCacheNode K V}
    (hcur : mapGet c.lookupTable key = none)
    (hmk : LRUCacheNode.make key value now (resolvedExpiry c eo) = Except.ok node) :
    c.set key value eo now =
      ⟨none,
        ({ (c.setNodeAsHead node).1 with
            lookupTable := mapSet (c.setNodeAsHead node).1.lookupTable key node
          }.enforceSizeLimit now).1,
        [] ++ (c.setNodeAsHead node).2 ++
          ({ (c.setNodeAsHead node).1 with
              lookupTable := mapSet (c.setNodeAsHead node).1.lookupTable key node
            }.enforceSizeLimit now).2⟩ := by
  simp only [LRUCache.set, hcur, hmk]

lemma remove_inv {c : LRUCache K V} (hi : Inv c) (node : LRUCacheNode K V) (now : Int) :
    Inv (c.removeNodeFromListAndLookupTable node now).1 := by
  obtain ⟨hc, hms, hsz⟩ := hi
  rw [remove_state_eq]
  refine ⟨consistent_remove hc node.key _ _, hms, ?_⟩
  show ((c.lookupTable.eraseP fun p => p.1 == node.key).length : Int) ≤ c.maxSizeInternal
  have hle : (c.lookupTable.eraseP fun p => p.1 == node.key).length ≤ c.lookupTable.length :=
    (List.eraseP_sublist _).length_le
  have hsz' : (c.lookupTable.length : Int) ≤ c.maxSizeInternal := hsz
  omega

/-- The state reached by a successful `set` for a key absent from the
lookup table, before the final `enforceSizeLimit`: the new node is linked
as head and appended to the table. -/
lemma set_fresh_mid_state {c : LRUCache K V} (hc : Consistent c)
    {key : K} {node : LRUCacheNode K V}
    (hcur : mapGet c.lookupTable key = none) (hkey : node.key = key) :
    { (c.setNodeAsHead node).1 with
        lookupTable := mapSet (c.setNodeAsHead node).1.lookupTable key node } =
      LRUCache.mk c.maxSizeInternal c.entryExpirationTimeInMS (node :: c.list)
        (c.lookupTable ++ [(key, node)]) := by
  have habs : ∀ p ∈ c.lookupTable, p.1 ≠ key := mapGet_eq_none_iff.mp hcur
  have hfresh : ∀ n ∈ c.list, ¬ (n.key == node.key) = true := by
    intro n hn
    have hpair := hc.2.2.2 n hn
    have := habs (n.key, n) hpair
    simp [hkey, this]
  rw [setNodeAsHead_eq]
  simp only [List.eraseP_of_forall_not hfresh]
  rw [mapSet_of_absent _ (by rw [hcur])]

lemma set_inv {c : LRUCache K V} (hi : Inv c) (key : K) (value : V)
    (eo : Option (Option JSNum)) (now : Int) : Inv (c.set key value eo now).state := by
  have hc := hi.1
  have hms := hi.2.1
  have hsz := hi.2.2
  cases hmk : LRUCacheNode.make key value now (resolvedExpiry c eo) with
  | error e =>
      cases hcur : mapGet c.lookupTable key with
      | none => rw [set_error_absent hcur hmk]; exact hi
      | some node0 => rw [set_error_present hcur hmk]; exact remove_inv hi node0 now
  | ok node =>
      obtain ⟨hkey, hval, hcre⟩ := make_ok_fields hmk
      cases hcur : mapGet c.lookupTable key with
      | none =>
          rw [set_ok_absent hcur hmk]
          have hmid := set_fresh_mid_state hc hcur hkey
          show Inv (LRUCache.enforceSizeLimit _ now).1
          rw [hmid]
          have hcons2 : Consistent (LRUCache.mk c.maxSizeInternal c.entryExpirationTimeInMS
              (node :: c.list) (c.lookupTable ++ [(key, node)])) := by
            rw [← hkey]
            exact consistent_insert_fresh hc (by rw [hkey]; exact hcur) _ _
          obtain ⟨h1, h2, h3, h4⟩ := enforceSizeLimit_spec hcons2 now (le_of_lt hms)
          exact ⟨h1, by rw [h2]; exact hms, by rw [h2]; exact h4⟩
      | some node0 =>
          rw [set_ok_present hcur hmk]
          have hinv1 : Inv (c.removeNodeFromListAndLookupTable node0 now).1 :=
            remove_inv hi node0 now
          have hc1 := hinv1.1
          have hkey0 : node0.key = key := (hc.2.2.1 _ (mapGet_mem hcur)).2
          have hcur1 : mapGet (c.removeNodeFromListAndLookupTable node0 now).1.lookupTable
              key = none := by
            rw [remove_state_eq]
            refine mapGet_eq_none_iff.mpr ?_
            intro p hp
            have := pairFst_eraseP_ne hc.2.1 p hp
            rwa [hkey0] at this
          have hmid := set_fresh_mid_state hc1 hcur1 hkey
          show Inv (LRUCache.enforceSizeLimit _ now).1
          rw [hmid]
          have hcons2 : Consistent (LRUCache.mk
              (c.removeNodeFromListAndLookupTable node0 now).1.maxSizeInternal
              (c.removeNodeFromListAndLookupTable node0 now).1.entryExpirationTimeInMS
              (node :: (c.removeNodeFromListAndLookupTable node0 now).1.list)
              ((c.removeNodeFromListAndLookupTable node0 now).1.lookupTable ++
                [(key, node)])) := by
            rw [← hkey]
            exact consistent_insert_fresh hc1 (by rw [hkey]; exact hcur1) _ _
          obtain ⟨h1, h2, h3, h4⟩ := enforceSizeLimit_spec hcons2 now
            (by rw [remove_state_eq]; exact le_of_lt hms)
          refine ⟨h1, ?_, ?_⟩
          · rw [h2]
            show 0 < (c.removeNodeFromListAndLookupTable node0 now).1.maxSizeInternal
            rw [remove_state_eq]
            exact hms
          · rw [h2]
            exact h4

end SetLemmas

section InvLemmas

lemma consistent_empty (ms : Int) (ee : Option Int) :
    Consistent (⟨ms, ee, [], []⟩ : LRUCache K V) := by
  refine ⟨List.nodup_nil, List.nodup_nil, ?_, ?_⟩ <;> intro x hx <;> cases hx

lemma get_inv {c : LRUCache K V} (hi : Inv c) (key : K) (now : Int) :
    Inv (c.get key now).2.1 := by
  obtain ⟨hc, hms, hsz⟩ := hi
  cases hcur : mapGet c.lookupTable key with
  | none =>
      rw [get_miss now hcur]
      exact ⟨hc, hms, hsz⟩
  | some node =>
      cases he : node.isExpired now with
      | true =>
          rw [get_hit_expired hcur he]
          exact remove_inv ⟨hc, hms, hsz⟩ node now
      | false =>
          rw [get_hit_live hcur he]
          show Inv (c.setNodeAsHead node).1
          rw [setNodeAsHead_eq]
          have hmem := mapGet_mem hcur
          have hkey : node.key = key := (hc.2.2.1 _ hmem).2
          exact ⟨consistent_promote hc (by rwa [hkey]), hms, hsz⟩

lemma peek_inv {c : LRUCache K V} (hi : Inv c) (key : K) (now : Int) :
    Inv (c.peek key now).2.1 := by
  cases hcur : mapGet c.lookupTable key with
  | none =>
      rw [peek_miss now hcur]
      exact hi
  | some node =>
      cases he : node.isExpired now with
      | true =>
          rw [peek_hit_expired hcur he]
          exact remove_inv hi node now
      | false =>
          rw [peek_hit_live hcur he]
          exact hi

lemma delete_inv {c : LRUCache K V} (hi : Inv c) (key : K) (now : Int) :
    Inv (c.delete key now).2.1 := by
  cases hcur : mapGet c.lookupTable key with
  | none =>
      rw [delete_miss now hcur]
      exact hi
  | some node =>
      rw [delete_hit now hcur]
      exact remove_inv hi node now

lemma clear_inv {c : LRUCache K V} (hi : Inv c) : Inv c.clear := by
  refine ⟨consistent_empty _ _, hi.2.1, ?_⟩
  show ((0 : Nat) : Int) ≤ c.maxSizeInternal
  exact le_of_lt (by exact_mod_cast hi.2.1)

lemma setMaxSize_inv {c : LRUCache K V} (hi : Inv c) (value : JSNum) (now : Int) :
    Inv (c.setMaxSize value now).state := by
  unfold LRUCache.setMaxSize
  split
  next hcond => exact hi
  next hcond =>
      have hval : 0 < value.val := by
        simp only [Bool.or_eq_true, decide_eq_true_eq, not_or] at hcond
        omega
      have hc' : Consistent { c with maxSizeInternal := value.val } := hi.1
      obtain ⟨h1, h2, h3, h4⟩ := enforceSizeLimit_spec hc' now (le_of_lt hval)
      exact ⟨h1, by rw [h2]; exact hval, by rw [h2]; exact h4⟩

lemma create_inv {m? e? : Option JSNum} {c : LRUCache K V}
    (h : LRUCache.create m? e? = Except.ok c) : Inv c ∧ ExpiryValid c := by
  cases e? with
  | none =>
      simp only [LRUCache.create] at h
      by_cases hcond :
          ((m?.getD ⟨false, 25⟩).nan || decide ((m?.getD ⟨false, 25⟩).val ≤ 0)) = true
      · rw [if_pos hcond] at h
        cases h
      · rw [if_neg hcond] at h
        have hval : 0 < (m?.getD ⟨false, 25⟩).val := by
          simp only [Bool.or_eq_true, decide_eq_true_eq, not_or] at hcond
          omega
        injection h with h
        rw [← h]
        exact ⟨⟨consistent_empty _ _, hval, by exact_mod_cast le_of_lt hval⟩,
          by unfold ExpiryValid; simp⟩
  | some x =>
      simp only [LRUCache.create] at h
      by_cases hcond :
          ((m?.getD ⟨false, 25⟩).nan || decide ((m?.getD ⟨false, 25⟩).val ≤ 0)) = true
      · rw [if_pos hcond] at h
        cases h
      · rw [if_neg hcond] at h
        have hval : 0 < (m?.getD ⟨false, 25⟩).val := by
          simp only [Bool.or_eq_true, decide_eq_true_eq, not_or] at hcond
          omega
        by_cases hx : (decide (x.val ≤ 0) || x.nan) = true
        · rw [if_pos hx] at h
          cases h
        · rw [if_neg hx] at h
          have hxval : 0 < x.val := by
            simp only [Bool.or_eq_true, decide_eq_true_eq, not_or] at hx
            omega
          injection h with h
          rw [← h]
          exact ⟨⟨consistent_empty _ _, hval, by exact_mod_cast le_of_lt hval⟩,
            by unfold ExpiryValid; simpa using hxval⟩

lemma findLoop_cons (cond : LRUCacheEntry K V → Bool) (now : Int)
    (node : LRUCacheNode K V) (rest : List (LRUCacheNode K V)) (c : LRUCache K V) :
    LRUCache.findLoop cond now (node :: rest) c =
      if node.isExpired now then
        ((LRUCache.findLoop cond now rest
            (c.removeNodeFromListAndLookupTable node now).1).1,
          (LRUCache.findLoop cond now rest
            (c.removeNodeFromListAndLookupTable node now).1).2.1,
          (c.removeNodeFromListAndLookupTable node now).2.2 ++
            (LRUCache.findLoop cond now rest
              (c.removeNodeFromListAndLookupTable node now).1).2.2)
      else if cond (mapNodeToEntry node) then
        (some (mapNodeToEntry node), (c.setNodeAsHead node).1, (c.setNodeAsHead node).2)
      else LRUCache.findLoop cond now rest c := rfl

lemma findLoop_inv (cond : LRUCacheEntry K V → Bool) (now : Int) :
    ∀ (rest : List (LRUCacheNode K V)) (c : LRUCache K V), Inv c →
      (∀ n ∈ rest, (n.key, n) ∈ c.lookupTable) →
      ((rest.map fun n => n.key).Nodup) →
      Inv (LRUCache.findLoop cond now rest c).2.1 := by
  intro rest
  induction rest with
  | nil =>
      intro c hc _ _
      exact hc
  | cons node rest ih =>
      intro c hc hmem hnd
      rw [findLoop_cons]
      rw [List.map_cons, List.nodup_cons] at hnd
      by_cases he : node.isExpired now = true
      · rw [if_pos he]
        refine ih _ (remove_inv hc node now) ?_ hnd.2
        intro n hn
        have hne : n.key ≠ node.key := by
          intro h
          exact hnd.1 (h ▸ List.mem_map_of_mem _ hn)
        show (n.key, n) ∈ (c.removeNodeFromListAndLookupTable node now).1.lookupTable
        rw [remove_state_eq]
        exact pairFst_eraseP_mem hne (hmem n (List.mem_cons_of_mem _ hn))
      · rw [if_neg he]
        by_cases hcond : cond (mapNodeToEntry node) = true
        · rw [if_pos hcond]
          show Inv (c.setNodeAsHead node).1
          rw [setNodeAsHead_eq]
          exact ⟨consistent_promote hc.1 (hmem node (List.mem_cons_self _ _)),
            hc.2.1, hc.2.2⟩
        · rw [if_neg hcond]
          exact ih _ hc (fun n hn => hmem n (List.mem_cons_of_mem _ hn)) hnd.2

lemma find_inv {c : LRUCache K V} (hi : Inv c) (cond : LRUCacheEntry K V → Bool)
    (now : Int) : Inv (c.find cond now).2.1 :=
  findLoop_inv cond now c.list c hi (fun n hn => hi.1.2.2.2 n hn) hi.1.1

lemma forEachLoop_cons (now : Int) (node : LRUCacheNode K V)
    (rest : List (LRUCacheNode K V)) (c : LRUCache K V) (index : Nat) :
    LRUCache.forEachLoop now (node :: rest) c index =
      if node.isExpired now then
        ((LRUCache.forEachLoop now rest
            (c.removeNodeFromListAndLookupTable node now).1 index).1,
          (LRUCache.forEachLoop now rest
            (c.removeNodeFromListAndLookupTable node now).1 index).2.1,
          (c.removeNodeFromListAndLookupTable node now).2.2 ++
            (LRUCache.forEachLoop now rest
              (c.removeNodeFromListAndLookupTable node now).1 index).2.2)
      else
        ((node.value, node.key, index) :: (LRUCache.forEachLoop now rest c (index + 1)).1,
          (LRUCache.forEachLoop now rest c (index + 1)).2.1,
          (LRUCache.forEachLoop now rest c (index + 1)).2.2) := rfl

lemma forEachLoop_inv (now : Int) :
    ∀ (rest : List (LRUCacheNode K V)) (c : LRUCache K V) (index : Nat), Inv c →
      Inv (LRUCache.forEachLoop now rest c index).2.1 := by
  intro rest
  induction rest with
  | nil =>
      intro c index hc
      exact hc
  | cons node rest ih =>
      intro c index hc
      rw [forEachLoop_cons]
      by_cases he : node.isExpired now = true
      · rw [if_pos he]
        exact ih _ _ (remove_inv hc node now)
      · rw [if_neg he]
        exact ih _ _ hc

lemma valuesLoop_cons (now : Int) (node : LRUCacheNode K V)
    (rest : List (LRUCacheNode K V)) (c : LRUCache K V) :
    LRUCache.valuesLoop now (node :: rest) c =
      if node.isExpired now then
        ((LRUCache.valuesLoop now rest
            (c.removeNodeFromListAndLookupTable node now).1).1,
          (LRUCache.valuesLoop now rest
            (c.removeNodeFromListAndLookupTable node now).1).2.1,
          (c.removeNodeFromListAndLookupTable node now).2.2 ++
            (LRUCache.valuesLoop now rest
              (c.removeNodeFromListAndLookupTable node now).1).2.2)
      else
        (node.value :: (LRUCache.valuesLoop now rest c).1,
          (LRUCache.valuesLoop now rest c).2.1,
          (LRUCache.valuesLoop now rest c).2.2) := rfl

lemma valuesLoop_inv (now : Int) :
    ∀ (rest : List (LRUCacheNode K V)) (c : LRUCache K V), Inv c →
      Inv (LRUCache.valuesLoop now rest c).2.1 := by
  intro rest
  induction rest with
  | nil =>
      intro c hc
      exact hc
  | cons node rest ih =>
      intro c hc
      rw [valuesLoop_cons]
      by_cases he : node.isExpired now = true
      · rw [if_pos he]
        exact ih _ (remove_inv hc node now)
      · rw [if_neg he]
        exact ih _ hc

lemma keysLoop_cons (now : Int) (node : LRUCacheNode K V)
    (rest : List (LRUCacheNode K V)) (c : LRUCache K V) :
    LRUCache.keysLoop now (node :: rest) c =
      if node.isExpired now then
        ((LRUCache.keysLoop now rest
            (c.removeNodeFromListAndLookupTable node now).1).1,
          (LRUCache.keysLoop now rest
            (c.removeNodeFromListAndLookupTable node now).1).2.1,
          (c.removeNodeFromListAndLookupTable node now).2.2 ++
            (LRUCache.keysLoop now rest
              (c.removeNodeFromListAndLookupTable node now).1).2.2)
      else
        (node.key :: (LRUCache.keysLoop now rest c).1,
          (LRUCache.keysLoop now rest c).2.1,
          (LRUCache.keysLoop now rest c).2.2) := rfl

lemma keysLoop_inv (now : Int) :
    ∀ (rest : List (LRUCacheNode K V)) (c : LRUCache K V), Inv c →
      Inv (LRUCache.keysLoop now rest c).2.1 := by
  intro rest
  induction rest with
  | nil =>
      intro c hc
      exact hc
  | cons node rest ih =>
      intro c hc
      rw [keysLoop_cons]
      by_cases he : node.isExpired now = true
      · rw [if_pos he]
        exact ih _ (remove_inv hc node now)
      · rw [if_neg he]
        exact ih _ hc

lemma entriesLoop_cons (now : Int) (node : LRUCacheNode K V)
    (rest : List (LRUCacheNode K V)) (c : LRUCache K V) :
    LRUCache.entriesLoop now (node :: rest) c =
      if node.isExpired now then
        ((LRUCache.entriesLoop now rest
            (c.removeNodeFromListAndLookupTable node now).1).1,
          (LRUCache.entriesLoop now rest
            (c.removeNodeFromListAndLookupTable node now).1).2.1,
          (c.removeNodeFromListAndLookupTable node now).2.2 ++
            (LRUCache.entriesLoop now rest
              (c.removeNodeFromListAndLookupTable node now).1).2.2)
      else
        (mapNodeToEntry node :: (LRUCache.entriesLoop now rest c).1,
          (LRUCache.entriesLoop now rest c).2.1,
          (LRUCache.entriesLoop now rest c).2.2) := rfl

lemma entriesLoop_inv (now : Int) :
    ∀ (rest : List (LRUCacheNode K V)) (c : LRUCache K V), Inv c →
      Inv (LRUCache.entriesLoop now rest c).2.1 := by
  intro rest
  induction rest with
  | nil =>
      intro c hc
      exact hc
  | cons node rest ih =>
      intro c hc
      rw [entriesLoop_cons]
      by_cases he : node.isExpired now = true
      · rw [if_pos he]
        exact ih _ (remove_inv hc node now)
      · rw [if_neg he]
        exact ih _ hc

lemma symbolIteratorLoop_cons (now : Int) (node : LRUCacheNode K V)
    (rest : List (LRUCacheNode K V)) (c : LRUCache K V) :
    LRUCache.symbolIteratorLoop now (node :: rest) c =
      if node.isExpired now then
        ((LRUCache.symbolIteratorLoop now rest
            (c.removeNodeFromListAndLookupTable node now).1).1,
          (LRUCache.symbolIteratorLoop now rest
            (c.removeNodeFromListAndLookupTable node now).1).2.1,
          (c.removeNodeFromListAndLookupTable node now).2.2 ++
            (LRUCache.symbolIteratorLoop now rest
              (c.removeNodeFromListAndLookupTable node now).1).2.2)
      else
        (mapNodeToEntry node :: (LRUCache.symbolIteratorLoop now rest c).1,
          (LRUCache.symbolIteratorLoop now rest c).2.1,
          (LRUCache.symbolIteratorLoop now rest c).2.2) := rfl

lemma symbolIteratorLoop_inv (now : Int) :
    ∀ (rest : List (LRUCacheNode K V)) (c : LRUCache K V), Inv c →
      Inv (LRUCache.symbolIteratorLoop now rest c).2.1 := by
  intro rest
  induction rest with
  | nil =>
      intro c hc
      exact hc
  | cons node rest ih =>
      intro c hc
      rw [symbolIteratorLoop_cons]
      by_cases he : node.isExpired now = true
      · rw [if_pos he]
        exact ih _ (remove_inv hc node now)
      · rw [if_neg he]
        exact ih _ hc

end InvLemmas

section BehaviourLemmas

/-- The eviction loop is a no-op once the size is within the limit. -/
lemma enforceLoop_stop {c : LRUCache K V} (now : Int) (fuel : Nat)
    (h : (c.size : Int) ≤ c.maxSizeInternal) :
    LRUCache.enforceLoop now fuel c = (c, []) := by
  cases fuel with
  | zero => rw [enforceLoop_zero]
  | succ fuel =>
      cases hg : c.list.getLast? with
      | none => rw [enforceLoop_succ, hg]
      | some node =>
          rw [enforceLoop_succ, hg]
          have hgt : ¬ ((c.size : Int) > c.maxSizeInternal) := not_lt.mpr h
          simp only [hgt, if_false]

/-- The eviction loop never unlinks the head node (the capacity is
positive, so eviction stops before the chain empties). -/
lemma enforceLoop_head (now : Int) :
    ∀ (fuel : Nat) (c : LRUCache K V), Consistent c → 0 < c.maxSizeInternal →
      ∀ (node : LRUCacheNode K V) (rest : List (LRUCacheNode K V)), c.list = node :: rest →
      ∃ rest', (LRUCache.enforceLoop now fuel c).1.list = node :: rest' := by
  intro fuel
  induction fuel with
  | zero =>
      intro c hc hms node rest hl
      rw [enforceLoop_zero]
      exact ⟨rest, hl⟩
  | succ fuel ih =>
      intro c hc hms node rest hl
      cases hg : c.list.getLast? with
      | none =>
          rw [List.getLast?_eq_none_iff] at hg
          rw [hl] at hg
          cases hg
      | some last =>
          by_cases hgt : (c.size : Int) > c.maxSizeInternal
          · have hred : (LRUCache.enforceLoop now (fuel + 1) c).1 =
                (LRUCache.enforceLoop now fuel
                  (c.removeNodeFromListAndLookupTable last now).1).1 := by
              rw [enforceLoop_succ, hg]
              simp only [hgt, if_true]
            rw [hred]
            have hrest_ne : rest ≠ [] := by
              intro h0
              have hlen : c.list.length = 1 := by rw [hl, h0]; rfl
              have hsize : c.size = 1 := by rw [consistent_size_eq hc, hlen]
              rw [hsize] at hgt
              omega
            have hlast_mem : last ∈ rest := by
              obtain ⟨ys, hys⟩ := List.getLast?_eq_some_iff.mp hg
              rw [hl] at hys
              cases ys with
              | nil =>
                  have : rest = [] := by simpa using (List.cons.injEq _ _ _ _).mp hys |>.2
                  exact absurd this hrest_ne
              | cons y ys' =>
                  have : rest = ys' ++ [last] := by
                    simpa using (List.cons.injEq _ _ _ _).mp hys |>.2
                  rw [this]
                  simp
            have hnodup := hc.1
            rw [hl, List.map_cons, List.nodup_cons] at hnodup
            have hne : ¬ (node.key == last.key) = true := by
              simp only [beq_iff_eq]
              intro heq
              exact hnodup.1 (heq ▸ List.mem_map_of_mem _ hlast_mem)
            have hstate : (c.removeNodeFromListAndLookupTable last now).1.list =
                node :: rest.eraseP (fun n => n.key == last.key) := by
              rw [remove_state_eq]
              show (c.list.eraseP fun n => n.key == last.key) = _
              rw [hl]
              exact List.eraseP_cons_of_neg hne
            refine ih (c.removeNodeFromListAndLookupTable last now).1 ?_ ?_ node _ hstate
            · rw [remove_state_eq]
              exact consistent_remove hc last.key _ _
            · rw [remove_state_eq]
              exact hms
          · have hred : LRUCache.enforceLoop now (fuel + 1) c = (c, []) := by
              rw [enforceLoop_succ, hg]
              simp only [hgt, if_false]
            rw [hred]
            exact ⟨rest, hl⟩

/-- One pass of `enforceSizeLimit` on a cache exactly one over the limit
evicts exactly the tail node, firing one eviction callback. -/
lemma enforce_one_eviction {c : LRUCache K V} (hc : Consistent c) (now : Int)
    {ys : List (LRUCacheNode K V)} {tailn : LRUCacheNode K V}
    (hl : c.list = ys ++ [tailn])
    (hsz : (c.size : Int) = c.maxSizeInternal + 1) :
    c.enforceSizeLimit now =
      (⟨c.maxSizeInternal, c.entryExpirationTimeInMS, ys,
          c.lookupTable.eraseP (fun p => p.1 == tailn.key)⟩,
        [CacheEvent.evicted tailn.key tailn.value (tailn.isExpired now)]) := by
  have hlen : c.list.length = ys.length + 1 := by rw [hl]; simp
  have hg : c.list.getLast? = some tailn := List.getLast?_eq_some_iff.mpr ⟨ys, hl⟩
  have hgt : (c.size : Int) > c.maxSizeInternal := by omega
  have hnodup := hc.1
  have htail_ne : ∀ b ∈ ys, ¬ (b.key == tailn.key) = true := by
    intro b hb
    simp only [beq_iff_eq]
    intro heq
    rw [hl, List.map_append, List.nodup_append] at hnodup
    exact hnodup.2.2 (List.mem_map_of_mem _ hb) (by simp [heq])
  have hremove : (c.removeNodeFromListAndLookupTable tailn now).1 =
      ⟨c.maxSizeInternal, c.entryExpirationTimeInMS, ys,
        c.lookupTable.eraseP (fun p => p.1 == tailn.key)⟩ := by
    rw [remove_state_eq, hl, List.eraseP_append_right _ htail_ne,
      List.eraseP_cons_of_pos (by simp)]
    simp
  have hremove_size : ((c.removeNodeFromListAndLookupTable tailn now).1.size : Int) =
      c.maxSizeInternal := by
    have hmem : (tailn.key, tailn) ∈ c.lookupTable :=
      hc.2.2.2 tailn (by rw [hl]; simp)
    have h1 := @List.length_eraseP_add_one _ (fun p => p.1 == tailn.key) _ _ hmem (by simp)
    have hsz' : (c.lookupTable.length : Int) = c.maxSizeInternal + 1 := hsz
    rw [remove_state_eq]
    show (((c.lookupTable.eraseP fun p => p.1 == tailn.key)).length : Int) = _
    omega
  rw [LRUCache.enforceSizeLimit, hlen, enforceLoop_succ, hg]
  simp only [hgt, if_true]
  rw [enforceLoop_stop now _ (le_of_eq hremove_size), hremove, remove_events_eq]
  rfl

/-- `mapGet` over an appended table, left part missing the key. -/
lemma mapGet_append_of_left_none {m1 m2 : List (K × α)} {k : K}
    (h : mapGet m1 k = none) : mapGet (m1 ++ m2) k = mapGet m2 k := by
  unfold mapGet at h ⊢
  rw [List.find?_append]
  have hf : (m1.find? fun p => p.1 == k) = none := by
    rcases hx : m1.find? fun p => p.1 == k with _ | p
    · exact hx
    · rw [hx] at h
      cases h
  rw [hf, Option.none_or]

/-- Resolving the entry expiration with no entry override yields the cache
default, and the node constructor accepts it on a validated cache. -/
lemma make_resolved_default {c : LRUCache K V} (hev : ExpiryValid c)
    (key : K) (value : V) (now : Int) :
    LRUCacheNode.make key value now (resolvedExpiry c none) =
      Except.ok ⟨key, value, now, c.entryExpirationTimeInMS⟩ := by
  unfold resolvedExpiry
  cases hexp : c.entryExpirationTimeInMS with
  | none => rfl
  | some t =>
      have ht : 0 < t := by
        unfold ExpiryValid at hev
        rw [hexp] at hev
        simpa using hev
      simp only [Option.map_some']
      exact make_ok_valid (by simpa using ht) rfl

/-- A node created at the current instant is not yet expired when its
expiration (if any) is positive. -/
lemma fresh_not_expired {key : K} {value : V} {now : Int} {e : Option Int}
    (he : 0 < e.getD 1) :
    LRUCacheNode.isExpired (⟨key, value, now, e⟩ : LRUCacheNode K V) now = false := by
  unfold LRUCacheNode.isExpired
  cases e with
  | none => rfl
  | some t =>
      simp only [Option.getD_some] at he
      simp only [decide_eq_false_iff_not, not_lt]
      omega

/-- Shape of a successful `set`: there is an intermediate cache `c1` (the
original, with any previous entry for the key removed) such that the final
state is `enforceSizeLimit` of `c1` with the new node linked as head and
appended to the table. -/
lemma set_ok_state {c : LRUCache K V} (hi : Inv c) {key : K} {value : V}
    {eo : Option (Option JSNum)} {now : Int} {node : LRUCacheNode K V}
    (hmk : LRUCacheNode.make key value now (resolvedExpiry c eo) = Except.ok node) :
    ∃ c1 : LRUCache K V, Consistent c1 ∧
      c1.maxSizeInternal = c.maxSizeInternal ∧
      c1.entryExpirationTimeInMS = c.entryExpirationTimeInMS ∧
      mapGet c1.lookupTable key = none ∧
      (c.set key value eo now).err = none ∧
      (c.set key value eo now).state =
        (LRUCache.enforceSizeLimit
          ⟨c.maxSizeInternal, c.entryExpirationTimeInMS, node :: c1.list,
            c1.lookupTable ++ [(key, node)]⟩ now).1 := by
  have hc := hi.1
  obtain ⟨hkey, hval, hcre⟩ := make_ok_fields hmk
  cases hcur : mapGet c.lookupTable key with
  | none =>
      refine ⟨c, hc, rfl, rfl, hcur, ?_, ?_⟩
      · rw [set_ok_absent hcur hmk]
      · rw [set_ok_absent hcur hmk]
        show (LRUCache.enforceSizeLimit _ now).1 = _
        rw [set_fresh_mid_state hc hcur hkey]
  | some node0 =>
      have hinv1 : Inv (c.removeNodeFromListAndLookupTable node0 now).1 :=
        remove_inv hi node0 now
      have hkey0 : node0.key = key := (hc.2.2.1 _ (mapGet_mem hcur)).2
      have hcur1 : mapGet (c.removeNodeFromListAndLookupTable node0 now).1.lookupTable
          key = none := by
        rw [remove_state_eq]
        refine mapGet_eq_none_iff.mpr ?_
        intro p hp
        have := pairFst_eraseP_ne hc.2.1 p hp
        rwa [hkey0] at this
      refine ⟨(c.removeNodeFromListAndLookupTable node0 now).1, hinv1.1,
        by rw [remove_state_eq], by rw [remove_state_eq], hcur1, ?_, ?_⟩
      · rw [set_ok_present hcur hmk]
      · rw [set_ok_present hcur hmk]
        show (LRUCache.enforceSizeLimit _ now).1 = _
        rw [set_fresh_mid_state hinv1.1 hcur1 hkey]
        rw [remove_state_eq]

/-- Summary of a successful `set`: no error, the new node is the head of
the final chain, the final state is consistent, and the key now maps to
the new node. -/
lemma set_ok_summary {c : LRUCache K V} (hi : Inv c) {key : K} {value : V}
    {eo : Option (Option JSNum)} {now : Int} {node : LRUCacheNode K V}
    (hmk : LRUCacheNode.make key value now (resolvedExpiry c eo) = Except.ok node) :
    (c.set key value eo now).err = none ∧
    ∃ rest', (c.set key value eo now).state.list = node :: rest' ∧
      Consistent (c.set key value eo now).state ∧
      mapGet (c.set key value eo now).state.lookupTable key = some node := by
  obtain ⟨c1, hc1, hms1, hexp1, hcur1, herr, hstate⟩ := set_ok_state hi hmk
  obtain ⟨hkey, hval, hcre⟩ := make_ok_fields hmk
  have hmid : Consistent (⟨c.maxSizeInternal, c.entryExpirationTimeInMS,
      node :: c1.list, c1.lookupTable ++ [(key, node)]⟩ : LRUCache K V) := by
    rw [← hkey]
    exact consistent_insert_fresh hc1 (by rw [hkey]; exact hcur1) _ _
  obtain ⟨hfin, _, _, _⟩ := enforceSizeLimit_spec hmid now (le_of_lt hi.2.1)
  rw [← hstate] at hfin
  obtain ⟨rest', hrest'⟩ := enforceLoop_head now
    (⟨c.maxSizeInternal, c.entryExpirationTimeInMS, node :: c1.list,
      c1.lookupTable ++ [(key, node)]⟩ : LRUCache K V).list.length
    ⟨c.maxSizeInternal, c.entryExpirationTimeInMS, node :: c1.list,
      c1.lookupTable ++ [(key, node)]⟩ hmid hi.2.1 node c1.list rfl
  have hrest2 : (c.set key value eo now).state.list = node :: rest' := by
    rw [hstate]
    exact hrest'
  refine ⟨herr, rest', hrest2, hfin, ?_⟩
  have hnode_mem : node ∈ (c.set key value eo now).state.list := by
    rw [hrest2]
    simp
  have hpair := hfin.2.2.2 node hnode_mem
  have := mapGet_eq_some_of_mem hfin.2.1 hpair
  rwa [hkey] at this

end BehaviourLemmas

section SetAllLemmas

lemma mapGet_singleton_ne {α : Type} {k k' : K} {x : α} (h : k ≠ k') :
    mapGet [(k, x)] k' = none := by
  unfold mapGet
  rw [List.find?_cons_of_neg _ (by simp [h])]
  rfl

lemma mapGet_map_pairs_none {l : List K} {k : K} (g : K → LRUCacheNode K V)
    (hk : k ∉ l) : mapGet (l.map fun a => (a, g a)) k = none := by
  refine mapGet_eq_none_iff.mpr ?_
  intro p hp
  obtain ⟨a, ha, hpa⟩ := List.mem_map.mp hp
  rw [← hpa]
  intro hak
  exact hk (hak ▸ ha)

lemma consistent_of_maps (ms : Int) (ee : Option Int) (l : List K) (hnd : l.Nodup)
    (vf : K → V) (now : Int) :
    Consistent (⟨ms, ee, l.reverse.map fun a => ⟨a, vf a, now, none⟩,
      l.map fun a => (a, ⟨a, vf a, now, none⟩)⟩ : LRUCache K V) := by
  refine ⟨?_, ?_, ?_, ?_⟩
  · show ((l.reverse.map fun a => (⟨a, vf a, now, none⟩ : LRUCacheNode K V)).map
      fun n => n.key).Nodup
    rw [List.map_map]
    have hcomp : ((fun n => n.key) ∘ fun a => (⟨a, vf a, now, none⟩ : LRUCacheNode K V)) =
        fun a => a := rfl
    rw [hcomp, List.map_id']
    exact List.nodup_reverse.mpr hnd
  · show ((l.map fun a => (a, (⟨a, vf a, now, none⟩ : LRUCacheNode K V))).map
      Prod.fst).Nodup
    rw [List.map_map]
    have hcomp : (Prod.fst ∘ fun a => (a, (⟨a, vf a, now, none⟩ : LRUCacheNode K V))) =
        fun a => a := rfl
    rw [hcomp, List.map_id']
    exact hnd
  · intro p hp
    obtain ⟨a, ha, hpa⟩ := List.mem_map.mp hp
    rw [← hpa]
    refine ⟨List.mem_map.mpr ⟨a, List.mem_reverse.mpr ha, rfl⟩, rfl⟩
  · intro n hn
    obtain ⟨a, ha, hna⟩ := List.mem_map.mp hn
    rw [← hna]
    exact List.mem_map.mpr ⟨a, List.mem_reverse.mp ha, rfl⟩

lemma setAll_append (vf : K → V) (now : Int) :
    ∀ (l1 l2 : List K) (c : LRUCache K V),
      c.setAll (l1 ++ l2) vf now =
        ((((c.setAll l1 vf now).1).setAll l2 vf now).1,
          (c.setAll l1 vf now).2 ++ (((c.setAll l1 vf now).1).setAll l2 vf now).2) := by
  intro l1
  induction l1 with
  | nil =>
      intro l2 c
      simp [LRUCache.setAll]
  | cons k l1 ih =>
      intro l2 c
      rw [List.cons_append]
      have hL : c.setAll (k :: (l1 ++ l2)) vf now =
          ((((c.set k (vf k) none now).state).setAll (l1 ++ l2) vf now).1,
            (c.set k (vf k) none now).events ++
              (((c.set k (vf k) none now).state).setAll (l1 ++ l2) vf now).2) := rfl
      have hR : c.setAll (k :: l1) vf now =
          ((((c.set k (vf k) none now).state).setAll l1 vf now).1,
            (c.set k (vf k) none now).events ++
              (((c.set k (vf k) none now).state).setAll l1 vf now).2) := rfl
      rw [hL, hR, ih]
      simp [List.append_assoc]

/-- Filling with fresh distinct keys within the remaining capacity of an
expiry-free cache: each `set` links a new node at head and appends to the
table; no eviction happens and only recency callbacks fire. -/
lemma setAll_fresh (vf : K → V) (now : Int) :
    ∀ (ks : List K) (c : LRUCache K V),
      Consistent c →
      c.entryExpirationTimeInMS = none →
      ((c.size : Int) + ks.length ≤ c.maxSizeInternal) →
      (∀ k ∈ ks, mapGet c.lookupTable k = none) →
      ks.Nodup →
      (c.setAll ks vf now).1 =
        ⟨c.maxSizeInternal, none,
          (ks.reverse.map fun a => ⟨a, vf a, now, none⟩) ++ c.list,
          c.lookupTable ++ (ks.map fun a => (a, ⟨a, vf a, now, none⟩))⟩ ∧
      (c.setAll ks vf now).2 = ks.map fun a => CacheEvent.mru a (vf a) := by
  intro ks
  induction ks with
  | nil =>
      intro c hc hexp hsz hf hnd
      obtain ⟨ms, ee, l, t⟩ := c
      simp only at hexp
      subst hexp
      constructor
      · show (⟨ms, none, l, t⟩ : LRUCache K V) = _
        simp
      · rfl
  | cons k ks ih =>
      intro c hc hexp hsz hf hnd
      rw [List.nodup_cons] at hnd
      have hcur : mapGet c.lookupTable k = none := hf k (List.mem_cons_self _ _)
      have hmk : LRUCacheNode.make k (vf k) now (resolvedExpiry c none) =
          Except.ok ⟨k, vf k, now, none⟩ := by
        unfold resolvedExpiry
        rw [hexp]
        rfl
      have hset := set_ok_absent hcur hmk
      have hmid := @set_fresh_mid_state K V _ c hc k
        (⟨k, vf k, now, none⟩ : LRUCacheNode K V) hcur rfl
      rw [hmid] at hset
      have hbr : c.size = c.lookupTable.length := rfl
      have hsz1 : (c.size : Int) + (ks.length + 1) ≤ c.maxSizeInternal := by
        have := hsz
        simp only [List.length_cons] at this
        exact_mod_cast this
      have hmidsize : (((⟨c.maxSizeInternal, c.entryExpirationTimeInMS,
          (⟨k, vf k, now, none⟩ : LRUCacheNode K V) :: c.list,
          c.lookupTable ++ [(k, (⟨k, vf k, now, none⟩ : LRUCacheNode K V))]⟩ : LRUCache K V)).size : Int) ≤
          ((⟨c.maxSizeInternal, c.entryExpirationTimeInMS,
          (⟨k, vf k, now, none⟩ : LRUCacheNode K V) :: c.list,
          c.lookupTable ++ [(k, (⟨k, vf k, now, none⟩ : LRUCacheNode K V))]⟩ : LRUCache K V)).maxSizeInternal := by
        show (((c.lookupTable ++ [(k, (⟨k, vf k, now, none⟩ : LRUCacheNode K V))]).length :
          Int)) ≤ c.maxSizeInternal
        simp only [List.length_append, List.length_singleton]
        omega
      have hnoop := enforceSizeLimit_noop now hmidsize
      rw [hnoop] at hset
      have hmidc : Consistent (⟨c.maxSizeInternal, c.entryExpirationTimeInMS,
          (⟨k, vf k, now, none⟩ : LRUCacheNode K V) :: c.list,
          c.lookupTable ++ [(k, (⟨k, vf k, now, none⟩ : LRUCacheNode K V))]⟩ : LRUCache K V) :=
        consistent_insert_fresh hc hcur _ _
      have hmidf : ∀ k' ∈ ks, mapGet (c.lookupTable ++
          [(k, (⟨k, vf k, now, none⟩ : LRUCacheNode K V))]) k' = none := by
        intro k' hk'
        rw [mapGet_append_of_left_none (hf k' (List.mem_cons_of_mem _ hk'))]
        exact mapGet_singleton_ne (fun hkk => hnd.1 (hkk ▸ hk'))
      have hmidsz : ((((⟨c.maxSizeInternal, c.entryExpirationTimeInMS,
          (⟨k, vf k, now, none⟩ : LRUCacheNode K V) :: c.list,
          c.lookupTable ++ [(k, (⟨k, vf k, now, none⟩ : LRUCacheNode K V))]⟩ : LRUCache K V)).size : Int) +
          ks.length ≤ c.maxSizeInternal) := by
        show (((c.lookupTable ++ [(k, (⟨k, vf k, now, none⟩ : LRUCacheNode K V))]).length :
          Int)) + ks.length ≤ c.maxSizeInternal
        simp only [List.length_append, List.length_singleton]
        omega
      obtain ⟨ihs, ihe⟩ := ih
        ⟨c.maxSizeInternal, c.entryExpirationTimeInMS,
          (⟨k, vf k, now, none⟩ : LRUCacheNode K V) :: c.list,
          c.lookupTable ++ [(k, (⟨k, vf k, now, none⟩ : LRUCacheNode K V))]⟩
        hmidc (by show c.entryExpirationTimeInMS = none; exact hexp) hmidsz hmidf hnd.2
      have hcons : c.setAll (k :: ks) vf now =
          ((((c.set k (vf k) none now).state).setAll ks vf now).1,
            (c.set k (vf k) none now).events ++
              (((c.set k (vf k) none now).state).setAll ks vf now).2) := rfl
      rw [hcons, hset]
      constructor
      · show ((⟨c.maxSizeInternal, c.entryExpirationTimeInMS,
            (⟨k, vf k, now, none⟩ : LRUCacheNode K V) :: c.list,
            c.lookupTable ++ [(k, (⟨k, vf k, now, none⟩ : LRUCacheNode K V))]⟩ : LRUCache K V).setAll ks vf
            now).1 = _
        rw [ihs]
        simp [List.reverse_cons, List.append_assoc]
      · show ([] ++ [CacheEvent.mru k (vf k)] ++ []) ++
            ((⟨c.maxSizeInternal, c.entryExpirationTimeInMS,
              (⟨k, vf k, now, none⟩ : LRUCacheNode K V) :: c.list,
              c.lookupTable ++ [(k, (⟨k, vf k, now, none⟩ : LRUCacheNode K V))]⟩ : LRUCache K V).setAll ks vf
              now).2 = _
        rw [ihe]
        simp

/-- One `set` of a fresh key on a full expiry-free cache (filled from the
distinct keys `k0 :: ks`, `k0` first-inserted and hence at the tail):
the new node is linked as head and exactly the tail node — the entry for
`k0` — is evicted, with `isExpired = false`. -/
lemma set_on_full (ks : List K) (k0 k : K) (vf : K → V) (now : Int)
    (hnd : (k0 :: ks).Nodup) (hk : k ∉ k0 :: ks) :
    ((⟨(((k0 :: ks).length : Nat) : Int), none,
        ((k0 :: ks).reverse.map fun a => ⟨a, vf a, now, none⟩),
        ((k0 :: ks).map fun a => (a, ⟨a, vf a, now, none⟩))⟩ : LRUCache K V).set k (vf k)
        none now) =
      ⟨none,
        ⟨(((k0 :: ks).length : Nat) : Int), none,
          (⟨k, vf k, now, none⟩ : LRUCacheNode K V) ::
            (ks.reverse.map fun a => (⟨a, vf a, now, none⟩ : LRUCacheNode K V)),
          (((k0 :: ks).map fun a => (a, (⟨a, vf a, now, none⟩ : LRUCacheNode K V))) ++
            [(k, (⟨k, vf k, now, none⟩ : LRUCacheNode K V))]).eraseP fun p => p.1 == k0⟩,
        [CacheEvent.mru k (vf k), CacheEvent.evicted k0 (vf k0) false]⟩ := by
  have hScons := consistent_of_maps (((k0 :: ks).length : Nat) : Int) none (k0 :: ks)
    hnd vf now
  have hcurS : mapGet ((k0 :: ks).map fun a =>
      (a, (⟨a, vf a, now, none⟩ : LRUCacheNode K V))) k = none :=
    mapGet_map_pairs_none _ hk
  have hmkS : LRUCacheNode.make k (vf k) now
      (resolvedExpiry (⟨(((k0 :: ks).length : Nat) : Int), none,
        ((k0 :: ks).reverse.map fun a => ⟨a, vf a, now, none⟩),
        ((k0 :: ks).map fun a => (a, ⟨a, vf a, now, none⟩))⟩ : LRUCache K V) none) =
      Except.ok ⟨k, vf k, now, none⟩ := rfl
  rw [set_ok_absent hcurS hmkS]
  rw [@set_fresh_mid_state K V _
    ⟨(((k0 :: ks).length : Nat) : Int), none,
      ((k0 :: ks).reverse.map fun a => ⟨a, vf a, now, none⟩),
      ((k0 :: ks).map fun a => (a, ⟨a, vf a, now, none⟩))⟩ hScons k
    ⟨k, vf k, now, none⟩ hcurS rfl]
  have hMc : Consistent (⟨(((k0 :: ks).length : Nat) : Int), none,
      (⟨k, vf k, now, none⟩ : LRUCacheNode K V) ::
        ((k0 :: ks).reverse.map fun a => ⟨a, vf a, now, none⟩),
      ((k0 :: ks).map fun a => (a, ⟨a, vf a, now, none⟩)) ++
        [(k, (⟨k, vf k, now, none⟩ : LRUCacheNode K V))]⟩ : LRUCache K V) :=
    consistent_insert_fresh hScons hcurS _ _
  have hl : (⟨(((k0 :: ks).length : Nat) : Int), none,
      (⟨k, vf k, now, none⟩ : LRUCacheNode K V) ::
        ((k0 :: ks).reverse.map fun a => ⟨a, vf a, now, none⟩),
      ((k0 :: ks).map fun a => (a, ⟨a, vf a, now, none⟩)) ++
        [(k, (⟨k, vf k, now, none⟩ : LRUCacheNode K V))]⟩ : LRUCache K V).list =
      ((⟨k, vf k, now, none⟩ : LRUCacheNode K V) ::
        (ks.reverse.map fun a => ⟨a, vf a, now, none⟩)) ++
        [⟨k0, vf k0, now, none⟩] := by
    show (⟨k, vf k, now, none⟩ : LRUCacheNode K V) ::
        ((k0 :: ks).reverse.map fun a => ⟨a, vf a, now, none⟩) = _
    simp [List.reverse_cons]
  have hsz : ((⟨(((k0 :: ks).length : Nat) : Int), none,
      (⟨k, vf k, now, none⟩ : LRUCacheNode K V) ::
        ((k0 :: ks).reverse.map fun a => ⟨a, vf a, now, none⟩),
      ((k0 :: ks).map fun a => (a, ⟨a, vf a, now, none⟩)) ++
        [(k, (⟨k, vf k, now, none⟩ : LRUCacheNode K V))]⟩ : LRUCache K V).size : Int) =
      (⟨(((k0 :: ks).length : Nat) : Int), none,
      (⟨k, vf k, now, none⟩ : LRUCacheNode K V) ::
        ((k0 :: ks).reverse.map fun a => ⟨a, vf a, now, none⟩),
      ((k0 :: ks).map fun a => (a, ⟨a, vf a, now, none⟩)) ++
        [(k, (⟨k, vf k, now, none⟩ : LRUCacheNode K V))]⟩ : LRUCache K V).maxSizeInternal + 1 := by
    show (((((k0 :: ks).map fun a => (a, (⟨a, vf a, now, none⟩ : LRUCacheNode K V))) ++
        [(k, (⟨k, vf k, now, none⟩ : LRUCacheNode K V))]).length : Nat) : Int) =
      (((k0 :: ks).length : Nat) : Int) + 1
    simp
  rw [enforce_one_eviction hMc now hl hsz]
  rfl

/-- Keys of the lookup table after filling with `k0 :: ks` and setting one
more fresh key `k`. -/
lemma full_table_keys (ks : List K) (k0 k : K) (vf : K → V) (now : Int) :
    ((((k0 :: ks).map fun a => (a, (⟨a, vf a, now, none⟩ : LRUCacheNode K V))) ++
      [(k, (⟨k, vf k, now, none⟩ : LRUCacheNode K V))]).map Prod.fst) = (k0 :: ks) ++ [k] := by
  rw [List.map_append, List.map_map]
  have hcomp : (Prod.fst ∘ fun a => (a, (⟨a, vf a, now, none⟩ : LRUCacheNode K V))) =
      fun a => a := rfl
  rw [hcomp, List.map_id']
  rfl

end SetAllLemmas

/-- C1: after every public operation (`set` — including when it throws
mid-way —, `get`, `peek`, `delete`, `clear`, the `maxSize` setter,
construction, `find`, `forEach`, and the `values`/`keys`/`entries`/
`[Symbol.iterator]` generators run to completion — the last six prune
expired entries mid-walk, and `find` additionally promotes a match) the
two structures stay consistent: the nodes reachable by walking the recency
chain from head to tail are exactly the indexed nodes with each indexed
key mapping to exactly one reachable node and vice versa (`Inv` contains
`Consistent`), the reachable count equals the index size, and the index
size never exceeds the capacity. -/
theorem claim1_structures_consistent {c : LRUCache K V} (h : Inv c) (key : K) (value : V)
    (eo : Option (Option JSNum)) (ms : JSNum) (now : Int) :
    (Inv (c.set key value eo now).state ∧
      (c.set key value eo now).state.list.length = (c.set key value eo now).state.size) ∧
    (Inv (c.get key now).2.1 ∧
      (c.get key now).2.1.list.length = (c.get key now).2.1.size) ∧
    (Inv (c.peek key now).2.1 ∧
      (c.peek key now).2.1.list.length = (c.peek key now).2.1.size) ∧
    (Inv (c.delete key now).2.1 ∧
      (c.delete key now).2.1.list.length = (c.delete key now).2.1.size) ∧
    (Inv c.clear ∧ c.clear.list.length = c.clear.size) ∧
    (Inv (c.setMaxSize ms now).state ∧
      (c.setMaxSize ms now).state.list.length = (c.setMaxSize ms now).state.size) ∧
    (∀ (m? e? : Option JSNum) (c0 : LRUCache K V),
      LRUCache.create m? e? = Except.ok c0 → Inv c0 ∧ c0.list.length = c0.size) ∧
    (∀ cond : LRUCacheEntry K V → Bool,
      Inv (c.find cond now).2.1 ∧
      (c.find cond now).2.1.list.length = (c.find cond now).2.1.size) ∧
    (Inv (c.forEach now).2.1 ∧
      (c.forEach now).2.1.list.length = (c.forEach now).2.1.size) ∧
    (Inv (c.values now).2.1 ∧
      (c.values now).2.1.list.length = (c.values now).2.1.size) ∧
    (Inv (c.keys now).2.1 ∧
      (c.keys now).2.1.list.length = (c.keys now).2.1.size) ∧
    (Inv (c.entries now).2.1 ∧
      (c.entries now).2.1.list.length = (c.entries now).2.1.size) ∧
    (Inv (c.symbolIterator now).2.1 ∧
      (c.symbolIterator now).2.1.list.length = (c.symbolIterator now).2.1.size) := by
  have hset := set_inv h key value eo now
  have hget := get_inv h key now
  have hpeek := peek_inv h key now
  have hdel := delete_inv h key now
  have hclear := clear_inv h
  have hsms := setMaxSize_inv h ms now
  have hfe : Inv (c.forEach now).2.1 := forEachLoop_inv now c.list c 0 h
  have hva : Inv (c.values now).2.1 := valuesLoop_inv now c.list c h
  have hke : Inv (c.keys now).2.1 := keysLoop_inv now c.list c h
  have hen : Inv (c.entries now).2.1 := entriesLoop_inv now c.list c h
  have hit : Inv (c.symbolIterator now).2.1 := symbolIteratorLoop_inv now c.list c h
  refine ⟨⟨hset, (consistent_size_eq hset.1).symm⟩,
    ⟨hget, (consistent_size_eq hget.1).symm⟩,
    ⟨hpeek, (consistent_size_eq hpeek.1).symm⟩,
    ⟨hdel, (consistent_size_eq hdel.1).symm⟩,
    ⟨hclear, (consistent_size_eq hclear.1).symm⟩,
    ⟨hsms, (consistent_size_eq hsms.1).symm⟩, ?_, ?_,
    ⟨hfe, (consistent_size_eq hfe.1).symm⟩,
    ⟨hva, (consistent_size_eq hva.1).symm⟩,
    ⟨hke, (consistent_size_eq hke.1).symm⟩,
    ⟨hen, (consistent_size_eq hen.1).symm⟩,
    ⟨hit, (consistent_size_eq hit.1).symm⟩⟩
  · intro m? e? c0 hc0
    have hi0 := (create_inv hc0).1
    exact ⟨hi0, (consistent_size_eq hi0.1).symm⟩
  · intro cond
    have hfind := find_inv h cond now
    exact ⟨hfind, (consistent_size_eq hfind.1).symm⟩

/-- Witness for C1 at a concrete well-formed one-entry cache, exercising
the `set` component of the theorem. -/
theorem claim1_structures_consistent_witness :
    Inv ((⟨2, none, [⟨0, 5, 0, none⟩],
        [(0, ⟨0, 5, 0, none⟩)]⟩ : LRUCache Nat Nat).set 1 6 none 0).state :=
  ((claim1_structures_consistent (by decide) 1 6 none ⟨false, 3⟩ 0).1).1

/-- C2: capacity enforcement evicts from the tail, least-recently-used
first.  (i) With capacity N := the number of the distinct keys
`k0 :: ks`, filling an expiry-free cache with them and then setting one
further fresh key `k` (no interleaved `get`) leaves `k0` — the
first-inserted key — absent, and the whole run fires exactly the recency
callbacks plus one eviction callback, for `k0`, with `isExpired = false`.
(ii) Shrinking: filling a capacity-5 cache with keys 0..4 (4 newest) and
then setting `maxSize = 2` leaves exactly keys 4 and 3. -/
theorem claim2_capacity_eviction (ks : List K) (k0 k : K) (vf : K → V) (now : Int)
    (hnd : (k0 :: ks).Nodup) (hk : k ∉ k0 :: ks) :
    (((⟨(((k0 :: ks).length : Nat) : Int), none, [], []⟩ : LRUCache K V).setAll
        ((k0 :: ks) ++ [k]) vf now).1.has k0 = false) ∧
    ((⟨(((k0 :: ks).length : Nat) : Int), none, [], []⟩ : LRUCache K V).setAll
        ((k0 :: ks) ++ [k]) vf now).2 =
      ((k0 :: ks).map fun a => CacheEvent.mru a (vf a)) ++
        [CacheEvent.mru k (vf k), CacheEvent.evicted k0 (vf k0) false] ∧
    ((((⟨5, none, [], []⟩ : LRUCache Nat Nat).setAll [0, 1, 2, 3, 4]
        (fun a => a + 100) 0).1.setMaxSize ⟨false, 2⟩ 0).state.list.map
        fun n => n.key) = [4, 3] := by
  obtain ⟨hS, hEv⟩ := setAll_fresh vf now (k0 :: ks)
    ⟨(((k0 :: ks).length : Nat) : Int), none, [], []⟩ (consistent_empty _ _) rfl
    (by simp [LRUCache.size]) (fun k' _ => rfl) hnd
  have hS' : ((⟨(((k0 :: ks).length : Nat) : Int), none, [], []⟩ : LRUCache K V).setAll
      (k0 :: ks) vf now).1 =
      ⟨(((k0 :: ks).length : Nat) : Int), none,
        ((k0 :: ks).reverse.map fun a => (⟨a, vf a, now, none⟩ : LRUCacheNode K V)),
        ((k0 :: ks).map fun a => (a, (⟨a, vf a, now, none⟩ : LRUCacheNode K V)))⟩ := by
    rw [hS]
    simp
  have happ := setAll_append vf now (k0 :: ks) [k]
    ⟨(((k0 :: ks).length : Nat) : Int), none, [], []⟩
  have hsingle : ∀ c : LRUCache K V, c.setAll [k] vf now =
      ((c.set k (vf k) none now).state, (c.set k (vf k) none now).events ++ []) :=
    fun c => rfl
  rw [happ, hS', hsingle, set_on_full ks k0 k vf now hnd hk]
  refine ⟨?_, ?_, by decide⟩
  · show mapHas ((((k0 :: ks).map fun a =>
        (a, (⟨a, vf a, now, none⟩ : LRUCacheNode K V))) ++
        [(k, (⟨k, vf k, now, none⟩ : LRUCacheNode K V))]).eraseP fun p => p.1 == k0)
        k0 = false
    rw [mapHas_eq_false_iff]
    refine mapGet_eq_none_iff.mpr ?_
    have hnodup_tab : (((((k0 :: ks).map fun a =>
        (a, (⟨a, vf a, now, none⟩ : LRUCacheNode K V))) ++
        [(k, (⟨k, vf k, now, none⟩ : LRUCacheNode K V))]).map Prod.fst)).Nodup := by
      rw [full_table_keys]
      refine List.Nodup.append hnd (List.nodup_singleton _) ?_
      intro a ha ha'
      have hak : a = k := by simpa using ha'
      exact hk (hak ▸ ha)
    exact pairFst_eraseP_ne hnodup_tab
  · rw [hEv]
    simp

/-- Witness for C2 with capacity 2, keys 10, 11, then 12. -/
theorem claim2_capacity_eviction_witness :
    ((⟨(((10 :: [11] : List Nat).length : Nat) : Int), none, [], []⟩ :
        LRUCache Nat Nat).setAll ((10 :: [11]) ++ [12]) (fun a => a + 1) 0).1.has 10 =
      false :=
  (claim2_capacity_eviction [11] 10 12 (fun a => a + 1) 0 (by decide) (by decide)).1

/-- C3: `get` returns null on an index miss; on a hit whose entry is
expired it removes the entry (firing the eviction callback with
`isExpired = true`) and returns null; on a live hit it promotes the entry
to head and returns its value; and immediately after `set(k, v)` (no entry
options), `get k` returns `v` and `k` is the head entry. -/
theorem claim3_get_behaviour {c : LRUCache K V} (hi : Inv c) (hev : ExpiryValid c)
    (key : K) (value : V) (now : Int) :
    (mapGet c.lookupTable key = none → c.get key now = (none, c, [])) ∧
    (∀ node, mapGet c.lookupTable key = some node → node.isExpired now = true →
      c.get key now = (none,
        ⟨c.maxSizeInternal, c.entryExpirationTimeInMS,
          c.list.eraseP fun n => n.key == key,
          c.lookupTable.eraseP fun p => p.1 == key⟩,
        [CacheEvent.evicted key node.value true])) ∧
    (∀ node, mapGet c.lookupTable key = some node → node.isExpired now = false →
      c.get key now = (some node.value,
        { c with list := node :: c.list.eraseP fun n => n.key == key },
        [CacheEvent.mru key node.value])) ∧
    (((c.set key value none now).state.get key now).1 = some value ∧
      ((c.set key value none now).state.list.head?.map fun n => n.key) = some key) := by
  refine ⟨get_miss now, ?_, ?_, ?_⟩
  · intro node hcur he
    have hkey : node.key = key := (hi.1.2.2.1 _ (mapGet_mem hcur)).2
    rw [get_hit_expired hcur he, remove_state_eq, remove_events_eq, hkey, he]
  · intro node hcur he
    have hkey : node.key = key := (hi.1.2.2.1 _ (mapGet_mem hcur)).2
    rw [get_hit_live hcur he, setNodeAsHead_eq, hkey]
  · have hmk := make_resolved_default hev key value now
    obtain ⟨herr, rest', hrest, hfin, hget⟩ := set_ok_summary hi hmk
    constructor
    · rw [get_hit_live hget (fresh_not_expired hev)]
    · rw [hrest]
      rfl

/-- Witness for C3 at a concrete one-entry cache. -/
theorem claim3_get_behaviour_witness :
    (((⟨3, none, [⟨0, 5, 0, none⟩], [(0, ⟨0, 5, 0, none⟩)]⟩ : LRUCache Nat Nat).set 1 9
        none 0).state.get 1 0).1 = some 9 :=
  (claim3_get_behaviour (by decide) (by decide) 1 9 0).2.2.2.1

/-- C4: on a live hit `peek` returns the same value `get` would, but the
cache state — head, tail, and all links — is completely unchanged and no
callback fires; on an expired hit `peek` still removes the entry (firing
the eviction callback) before returning null. -/
theorem claim4_peek_frame {c : LRUCache K V} (hi : Inv c) (key : K) (now : Int) :
    (∀ node, mapGet c.lookupTable key = some node → node.isExpired now = false →
      (c.peek key now).1 = (c.get key now).1 ∧
      c.peek key now = (some node.value, c, [])) ∧
    (∀ node, mapGet c.lookupTable key = some node → node.isExpired now = true →
      c.peek key now = (none,
        ⟨c.maxSizeInternal, c.entryExpirationTimeInMS,
          c.list.eraseP fun n => n.key == key,
          c.lookupTable.eraseP fun p => p.1 == key⟩,
        [CacheEvent.evicted key node.value true])) := by
  constructor
  · intro node hcur he
    rw [peek_hit_live hcur he, get_hit_live hcur he]
    exact ⟨rfl, rfl⟩
  · intro node hcur he
    have hkey : node.key = key := (hi.1.2.2.1 _ (mapGet_mem hcur)).2
    rw [peek_hit_expired hcur he, remove_state_eq, remove_events_eq, hkey, he]

/-- Witness for C4 at a concrete one-entry cache (live hit). -/
theorem claim4_peek_frame_witness :
    (⟨3, none, [⟨0, 5, 0, none⟩], [(0, ⟨0, 5, 0, none⟩)]⟩ : LRUCache Nat Nat).peek 0 0 =
      (some 5, ⟨3, none, [⟨0, 5, 0, none⟩], [(0, ⟨0, 5, 0, none⟩)]⟩, []) :=
  ((claim4_peek_frame (by decide) 0 0).1 ⟨0, 5, 0, none⟩ (by decide) (by decide)).2

/-- Counterexample to C5 as stated: overwriting a key whose current entry
is already expired fires the eviction callback with `isExpired = true`,
not `false` (cache expiry 5 ms, entry created at 0, overwrite at 10). -/
theorem claim5_overwrite_counterexample :
    ((⟨5, some 5, [⟨1, 7, 0, some 5⟩],
        [(1, ⟨1, 7, 0, some 5⟩)]⟩ : LRUCache Nat Nat).set 1 8 none 10).events =
      [CacheEvent.evicted 1 7 true, CacheEvent.mru 1 8] := by decide

/-- C5 (as amended): for a present key, `set(k, v2)` first evicts the old
entry, firing that entry's eviction callback exactly once with `isExpired`
equal to the old entry's expiry status at that moment — `false` exactly
when it is still live (the spec's unconditional `false` does not hold) —
then inserts a brand-new node at head with a fresh creation timestamp; the
size is unchanged and `get` afterwards returns `v2`. -/
theorem claim5_overwrite {c : LRUCache K V} (hi : Inv c) (hev : ExpiryValid c)
    {key : K} {node0 : LRUCacheNode K V} (v2 : V) (now : Int)
    (hcur : mapGet c.lookupTable key = some node0) :
    (c.set key v2 none now).err = none ∧
    (c.set key v2 none now).events =
      [CacheEvent.evicted key node0.value (node0.isExpired now),
        CacheEvent.mru key v2] ∧
    (node0.isExpired now = false →
      (c.set key v2 none now).events =
        [CacheEvent.evicted key node0.value false, CacheEvent.mru key v2]) ∧
    (c.set key v2 none now).state.list.head? =
      some ⟨key, v2, now, c.entryExpirationTimeInMS⟩ ∧
    (c.set key v2 none now).state.size = c.size ∧
    ((c.set key v2 none now).state.get key now).1 = some v2 := by
  have hmk := make_resolved_default hev key v2 now
  obtain ⟨herr, rest', hrest, hfin, hget⟩ := set_ok_summary hi hmk
  have hkey0 : node0.key = key := (hi.1.2.2.1 _ (mapGet_mem hcur)).2
  have hmem0 : (key, node0) ∈ c.lookupTable := mapGet_mem hcur
  have hc1 : Consistent (c.removeNodeFromListAndLookupTable node0 now).1 :=
    (remove_inv hi node0 now).1
  have hcur1 : mapGet (c.removeNodeFromListAndLookupTable node0 now).1.lookupTable
      key = none := by
    rw [remove_state_eq]
    refine mapGet_eq_none_iff.mpr ?_
    intro p hp
    have := pairFst_eraseP_ne hi.1.2.1 p hp
    rwa [hkey0] at this
  have hmid := @set_fresh_mid_state K V _ (c.removeNodeFromListAndLookupTable node0 now).1
    hc1 key (⟨key, v2, now, c.entryExpirationTimeInMS⟩ : LRUCacheNode K V) hcur1 rfl
  have hsize1 : (c.removeNodeFromListAndLookupTable node0 now).1.size + 1 = c.size := by
    rw [remove_state_eq]
    show ((c.lookupTable.eraseP fun p => p.1 == node0.key)).length + 1 = _
    exact List.length_eraseP_add_one hmem0 (by simp [hkey0])
  have hmidsize :
      ((LRUCache.mk (c.removeNodeFromListAndLookupTable node0 now).1.maxSizeInternal
        (c.removeNodeFromListAndLookupTable node0 now).1.entryExpirationTimeInMS
        ((⟨key, v2, now, c.entryExpirationTimeInMS⟩ : LRUCacheNode K V) ::
          (c.removeNodeFromListAndLookupTable node0 now).1.list)
        ((c.removeNodeFromListAndLookupTable node0 now).1.lookupTable ++
          [(key, ⟨key, v2, now, c.entryExpirationTimeInMS⟩)])).size : Int) ≤
      (LRUCache.mk (c.removeNodeFromListAndLookupTable node0 now).1.maxSizeInternal
        (c.removeNodeFromListAndLookupTable node0 now).1.entryExpirationTimeInMS
        ((⟨key, v2, now, c.entryExpirationTimeInMS⟩ : LRUCacheNode K V) ::
          (c.removeNodeFromListAndLookupTable node0 now).1.list)
        ((c.removeNodeFromListAndLookupTable node0 now).1.lookupTable ++
          [(key, ⟨key, v2, now, c.entryExpirationTimeInMS⟩)])).maxSizeInternal := by
    show (((c.removeNodeFromListAndLookupTable node0 now).1.lookupTable ++
      [(key, (⟨key, v2, now, c.entryExpirationTimeInMS⟩ : LRUCacheNode K V))]).length : Int) ≤
      (c.removeNodeFromListAndLookupTable node0 now).1.maxSizeInternal
    rw [List.length_append]
    have hm : (c.removeNodeFromListAndLookupTable node0 now).1.maxSizeInternal =
        c.maxSizeInternal := by rw [remove_state_eq]
    have hsz := hi.2.2
    show (((c.removeNodeFromListAndLookupTable node0 now).1.size + 1 : Nat) : Int) ≤ _
    rw [hsize1, hm]
    exact hsz
  have hnoop := enforceSizeLimit_noop now hmidsize
  have hset := set_ok_present hcur hmk
  rw [hmid] at hset
  rw [hnoop] at hset
  rw [hset]
  refine ⟨rfl, ?_, ?_, ?_, ?_, ?_⟩
  · show (c.removeNodeFromListAndLookupTable node0 now).2.2 ++
        [CacheEvent.mru key v2] ++ [] = _
    rw [remove_events_eq, hkey0]
    simp
  · intro hlive
    show (c.removeNodeFromListAndLookupTable node0 now).2.2 ++
        [CacheEvent.mru key v2] ++ [] = _
    rw [remove_events_eq, hkey0, hlive]
    simp
  · rfl
  · show ((c.removeNodeFromListAndLookupTable node0 now).1.lookupTable ++
        [(key, (⟨key, v2, now, c.entryExpirationTimeInMS⟩ : LRUCacheNode K V))]).length =
        c.size
    have hsize1' : (c.removeNodeFromListAndLookupTable node0 now).1.lookupTable.length + 1 =
        c.size := hsize1
    simp only [List.length_append, List.length_singleton]
    omega
  · rw [← hset]
    rw [get_hit_live hget (fresh_not_expired hev)]

/-- Witness for C5: overwriting the single live entry of a concrete
cache. -/
theorem claim5_overwrite_witness :
    ((⟨3, none, [⟨1, 7, 0, none⟩], [(1, ⟨1, 7, 0, none⟩)]⟩ : LRUCache Nat Nat).set 1 8
        none 0).events = [CacheEvent.evicted 1 7 false, CacheEvent.mru 1 8] :=
  (@claim5_overwrite Nat Nat _ ⟨3, none, [⟨1, 7, 0, none⟩], [(1, ⟨1, 7, 0, none⟩)]⟩
    (by decide) (by decide) 1 ⟨1, 7, 0, none⟩ 8 0 (by decide)).2.2.1 (by decide)

/-- Counterexample to C6 as stated: deleting a present key DOES invoke the
eviction callback (`delete` funnels through
`removeNodeFromListAndLookupTable`, which unconditionally calls
`invokeOnEvicted`). -/
theorem claim6_delete_counterexample :
    ((⟨3, none, [⟨0, 5, 0, none⟩], [(0, ⟨0, 5, 0, none⟩)]⟩ : LRUCache Nat Nat).delete 0
        0).2.2 = [CacheEvent.evicted 0 5 false] ∧
    ((⟨3, none, [⟨0, 5, 0, none⟩], [(0, ⟨0, 5, 0, none⟩)]⟩ : LRUCache Nat Nat).delete 0
        0).2.2 ≠ [] := by decide

/-- C6 (as amended): `delete` removes a present entry and returns whether
one was present; however a successful `delete` DOES invoke the eviction
callback for the removed entry (with its current expiry status), contrary
to the spec's exclusion; `clear` resets the state and invokes no
callback. -/
theorem claim6_delete_clear {c : LRUCache K V} (hi : Inv c) (key : K) (now : Int) :
    (mapGet c.lookupTable key = none → c.delete key now = (false, c, [])) ∧
    (∀ node, mapGet c.lookupTable key = some node →
      c.delete key now = (true,
        ⟨c.maxSizeInternal, c.entryExpirationTimeInMS,
          c.list.eraseP fun n => n.key == key,
          c.lookupTable.eraseP fun p => p.1 == key⟩,
        [CacheEvent.evicted key node.value (node.isExpired now)])) ∧
    c.clear = ⟨c.maxSizeInternal, c.entryExpirationTimeInMS, [], []⟩ := by
  refine ⟨delete_miss now, ?_, rfl⟩
  intro node hcur
  have hkey : node.key = key := (hi.1.2.2.1 _ (mapGet_mem hcur)).2
  have hflag : (c.removeNodeFromListAndLookupTable node now).2.1 = true := by
    rw [remove_flag_eq]
    refine mapHas_eq_true_iff.mpr ⟨node, ?_⟩
    rwa [hkey]
  rw [delete_hit now hcur, remove_state_eq, remove_events_eq, hflag, hkey]

/-- Witness for C6 at a concrete cache with one present and one absent
key. -/
theorem claim6_delete_clear_witness :
    (⟨3, none, [⟨0, 5, 0, none⟩], [(0, ⟨0, 5, 0, none⟩)]⟩ : LRUCache Nat Nat).delete 0 0 =
      (true, ⟨3, none, [], []⟩, [CacheEvent.evicted 0 5 false]) := by
  have h := (@claim6_delete_clear Nat Nat _
    ⟨3, none, [⟨0, 5, 0, none⟩], [(0, ⟨0, 5, 0, none⟩)]⟩ (by decide) 0 0).2.1
    ⟨0, 5, 0, none⟩ (by decide)
  rw [h]
  decide

/-- Counterexample to C7 as stated: a `set` with an existing key and an
invalid per-entry expiration raises only AFTER removing the existing entry
(and firing its eviction callback), so the failure does not leave the
cache unmodified. -/
theorem claim7_validation_counterexample :
    ((⟨3, none, [⟨1, 7, 0, none⟩], [(1, ⟨1, 7, 0, none⟩)]⟩ : LRUCache Nat Nat).set 1 8
        (some (some ⟨false, -1⟩)) 0).err.isSome = true ∧
    ((⟨3, none, [⟨1, 7, 0, none⟩], [(1, ⟨1, 7, 0, none⟩)]⟩ : LRUCache Nat Nat).set 1 8
        (some (some ⟨false, -1⟩)) 0).state ≠
      ⟨3, none, [⟨1, 7, 0, none⟩], [(1, ⟨1, 7, 0, none⟩)]⟩ ∧
    ((⟨3, none, [⟨1, 7, 0, none⟩], [(1, ⟨1, 7, 0, none⟩)]⟩ : LRUCache Nat Nat).set 1 8
        (some (some ⟨false, -1⟩)) 0).events =
      [CacheEvent.evicted 1 7 false] := by decide

/-- C7 (as amended): construction raises exactly when `maxSize` is NaN or
≤ 0 or a supplied expiration is NaN or ≤ 0, producing no cache; the
`maxSize` setter raises exactly when the value is NaN or ≤ 0 and leaves
the state unmodified; entry construction raises exactly when a supplied
expiration duration is NaN or ≤ 0; a failing `set` on an absent key leaves
the cache unmodified — but (contrary to the spec) a failing `set` on a
present key first removes the existing entry and fires its eviction
callback. -/
theorem claim7_validation {c : LRUCache K V} (hi : Inv c) :
    (∀ m? e? : Option JSNum,
      (∃ msg, (LRUCache.create m? e? : Except String (LRUCache K V)) = Except.error msg) ↔
        ((m?.getD ⟨false, 25⟩).nan = true ∨ (m?.getD ⟨false, 25⟩).val ≤ 0 ∨
          ∃ x, e? = some x ∧ (x.nan = true ∨ x.val ≤ 0))) ∧
    (∀ (value : JSNum) (now : Int),
      ((c.setMaxSize value now).err.isSome = true ↔
        (value.nan = true ∨ value.val ≤ 0)) ∧
      ((value.nan = true ∨ value.val ≤ 0) →
        (c.setMaxSize value now).state = c ∧ (c.setMaxSize value now).events = [])) ∧
    (∀ (k : K) (v : V) (now : Int),
      (∀ x : JSNum,
        (∃ msg, LRUCacheNode.make k v now (some x) = Except.error msg) ↔
          (x.nan = true ∨ x.val ≤ 0)) ∧
      LRUCacheNode.make k v now none = Except.ok ⟨k, v, now, none⟩) ∧
    (∀ (k : K) (v : V) (now : Int) (x : JSNum), (x.nan = true ∨ x.val ≤ 0) →
      (c.set k v (some (some x)) now).err.isSome = true ∧
      (mapGet c.lookupTable k = none →
        (c.set k v (some (some x)) now).state = c ∧
        (c.set k v (some (some x)) now).events = []) ∧
      (∀ node0, mapGet c.lookupTable k = some node0 →
        (c.set k v (some (some x)) now).state =
          ⟨c.maxSizeInternal, c.entryExpirationTimeInMS,
            c.list.eraseP fun n => n.key == k,
            c.lookupTable.eraseP fun p => p.1 == k⟩ ∧
        (c.set k v (some (some x)) now).events =
          [CacheEvent.evicted k node0.value (node0.isExpired now)])) := by
  refine ⟨?_, ?_, ?_, ?_⟩
  · intro m? e?
    cases e? with
    | none =>
        simp only [LRUCache.create]
        by_cases hcond :
            ((m?.getD ⟨false, 25⟩).nan || decide ((m?.getD ⟨false, 25⟩).val ≤ 0)) = true
        · rw [if_pos hcond]
          simp only [Bool.or_eq_true, decide_eq_true_eq] at hcond
          simp [hcond]
        · rw [if_neg hcond]
          simp only [Bool.or_eq_true, decide_eq_true_eq, not_or] at hcond
          constructor
          · rintro ⟨msg, hmsg⟩
            cases hmsg
          · rintro (h | h | ⟨x, hx, _⟩)
            · exact absurd h hcond.1
            · exact absurd h hcond.2
            · cases hx
    | some x =>
        simp only [LRUCache.create]
        by_cases hcond :
            ((m?.getD ⟨false, 25⟩).nan || decide ((m?.getD ⟨false, 25⟩).val ≤ 0)) = true
        · rw [if_pos hcond]
          simp only [Bool.or_eq_true, decide_eq_true_eq] at hcond
          constructor
          · intro _
            tauto
          · intro _
            exact ⟨_, rfl⟩
        · rw [if_neg hcond]
          simp only [Bool.or_eq_true, decide_eq_true_eq, not_or] at hcond
          by_cases hx : (decide (x.val ≤ 0) || x.nan) = true
          · rw [if_pos hx]
            simp only [Bool.or_eq_true, decide_eq_true_eq] at hx
            constructor
            · intro _
              refine Or.inr (Or.inr ⟨x, rfl, ?_⟩)
              tauto
            · intro _
              exact ⟨_, rfl⟩
          · rw [if_neg hx]
            simp only [Bool.or_eq_true, decide_eq_true_eq, not_or] at hx
            constructor
            · rintro ⟨msg, hmsg⟩
              cases hmsg
            · rintro (h | h | ⟨y, hy, hyv⟩)
              · exact absurd h hcond.1
              · exact absurd h hcond.2
              · injection hy with hy
                rw [← hy] at hyv
                rcases hyv with h | h
                · exact absurd h hx.2
                · exact absurd h hx.1
  · intro value now
    unfold LRUCache.setMaxSize
    by_cases hb : (value.nan || decide (value.val ≤ 0)) = true
    · rw [if_pos hb]
      simp only [Bool.or_eq_true, decide_eq_true_eq] at hb
      exact ⟨by simp [hb], fun _ => ⟨rfl, rfl⟩⟩
    · rw [if_neg hb]
      simp only [Bool.or_eq_true, decide_eq_true_eq, not_or] at hb
      constructor
      · simp [hb.1, hb.2]
      · intro h
        rcases h with h | h
        · exact absurd h hb.1
        · exact absurd h hb.2
  · intro k v now
    constructor
    · intro x
      constructor
      · rintro ⟨msg, hmsg⟩
        by_cases hx : x.val ≤ 0 ∨ x.nan = true
        · tauto
        · push_neg at hx
          have h2 : x.nan = false := by
            cases hnan : x.nan
            · rfl
            · exact absurd hnan hx.2
          rw [make_ok_valid (not_le.mpr hx.1) h2] at hmsg
          cases hmsg
      · intro h
        refine ⟨_, make_error_of_invalid ?_⟩
        tauto
    · exact make_ok_none
  · intro k v now x hx
    have hmk : LRUCacheNode.make k v now (resolvedExpiry c (some (some x))) =
        Except.error
          "entryExpirationTimeInMS must either be null (no expiry) or greater than 0" := by
      show LRUCacheNode.make k v now (some x) = _
      refine make_error_of_invalid ?_
      tauto
    refine ⟨?_, ?_, ?_⟩
    · cases hcur : mapGet c.lookupTable k with
      | none => rw [set_error_absent hcur hmk]; rfl
      | some node0 => rw [set_error_present hcur hmk]; rfl
    · intro hcur
      rw [set_error_absent hcur hmk]
      exact ⟨rfl, rfl⟩
    · intro node0 hcur
      have hkey : node0.key = k := (hi.1.2.2.1 _ (mapGet_mem hcur)).2
      rw [set_error_present hcur hmk, remove_state_eq, remove_events_eq, hkey]
      exact ⟨rfl, rfl⟩

/-- Witness for C7: the `maxSize` setter rejects 0 and leaves a concrete
cache unchanged. -/
theorem claim7_validation_witness :
    ((⟨3, none, [⟨0, 5, 0, none⟩], [(0, ⟨0, 5, 0, none⟩)]⟩ : LRUCache Nat Nat).setMaxSize
        ⟨false, 0⟩ 0).err.isSome = true ∧
    ((⟨3, none, [⟨0, 5, 0, none⟩], [(0, ⟨0, 5, 0, none⟩)]⟩ : LRUCache Nat Nat).setMaxSize
        ⟨false, 0⟩ 0).state =
      ⟨3, none, [⟨0, 5, 0, none⟩], [(0, ⟨0, 5, 0, none⟩)]⟩ := by
  have h := (@claim7_validation Nat Nat _
    ⟨3, none, [⟨0, 5, 0, none⟩], [(0, ⟨0, 5, 0, none⟩)]⟩ (by decide)).2.1 ⟨false, 0⟩ 0
  exact ⟨h.1.mpr (Or.inr (by decide)), (h.2 (Or.inr (by decide))).1⟩

/-- C8: round-trip with the clone policy.  Without clone, `set` then `get`
hands back exactly the stored value (the identical reference, i.e. literal
equality in the model).  With clone enabled — the node-side clone handling
is modelled from the spec, being absent from src — the value passes
through `cloneFn` on `set` (a copy is stored) and again on read, so for
any faithful copy function the result is structurally equal to the
original but a distinct reference. -/
theorem claim8_clone_roundtrip {c : LRUCache K V} (hi : Inv c) (hev : ExpiryValid c)
    (key : K) (v : V) (now : Int) {A : Type} (cloneFn : RefVal A → RefVal A)
    (w : RefVal A) (hdata : ∀ x, (cloneFn x).data = x.data)
    (href : ∀ x, x.ref < (cloneFn x).ref) :
    ((c.set key v none now).state.get key now).1 = some v ∧
    cloneStoredValue false cloneFn w = w ∧
    cloneReadValue false cloneFn w = w ∧
    cloneReadValue true cloneFn (cloneStoredValue true cloneFn w) = cloneFn (cloneFn w) ∧
    (cloneReadValue true cloneFn (cloneStoredValue true cloneFn w)).data = w.data ∧
    (cloneReadValue true cloneFn (cloneStoredValue true cloneFn w)).ref ≠ w.ref := by
  refine ⟨?_, rfl, rfl, rfl, ?_, ?_⟩
  · have hmk := make_resolved_default hev key v now
    obtain ⟨herr, rest', hrest, hfin, hget⟩ := set_ok_summary hi hmk
    rw [get_hit_live hget (fresh_not_expired hev)]
  · show (cloneFn (cloneFn w)).data = w.data
    rw [hdata, hdata]
  · show (cloneFn (cloneFn w)).ref ≠ w.ref
    have h1 := href w
    have h2 := href (cloneFn w)
    omega

/-- Witness for C8 with a concrete copy function that bumps the reference
and keeps the data. -/
theorem claim8_clone_roundtrip_witness :
    (cloneReadValue true (fun x : RefVal Nat => ⟨x.ref + 1, x.data⟩)
      (cloneStoredValue true (fun x : RefVal Nat => ⟨x.ref + 1, x.data⟩) ⟨0, 42⟩)).data =
        42 ∧
    (cloneReadValue true (fun x : RefVal Nat => ⟨x.ref + 1, x.data⟩)
      (cloneStoredValue true (fun x : RefVal Nat => ⟨x.ref + 1, x.data⟩) ⟨0, 42⟩)).ref ≠
        0 :=
  have h := @claim8_clone_roundtrip Nat Nat _ ⟨3, none, [], []⟩ (by decide) (by decide)
    0 5 0 Nat (fun x => ⟨x.ref + 1, x.data⟩) ⟨0, 42⟩ (fun _ => rfl)
    (fun x => Nat.lt_succ_self x.ref)
  ⟨h.2.2.2.2.1, h.2.2.2.2.2⟩

/-- C9: for a key absent from the lookup table, `get`, `peek`, `delete`
and `has` leave the state untouched, invoke no callback, and return
null, null, false and false respectively. -/
theorem claim9_absent_key_noops {c : LRUCache K V} (key : K) (now : Int)
    (h : mapGet c.lookupTable key = none) :
    c.get key now = (none, c, []) ∧
    c.peek key now = (none, c, []) ∧
    c.delete key now = (false, c, []) ∧
    c.has key = false := by
  refine ⟨get_miss now h, peek_miss now h, delete_miss now h, ?_⟩
  show mapHas c.lookupTable key = false
  exact mapHas_eq_false_iff.mpr h

/-- Witness for C9 at a concrete cache and an absent key. -/
theorem claim9_absent_key_noops_witness :
    (⟨3, none, [⟨0, 5, 0, none⟩], [(0, ⟨0, 5, 0, none⟩)]⟩ : LRUCache Nat Nat).get 7 0 =
      (none, ⟨3, none, [⟨0, 5, 0, none⟩], [(0, ⟨0, 5, 0, none⟩)]⟩, []) :=
  (claim9_absent_key_noops 7 0 (by decide)).1

/-- C10: `newest` and `oldest` perform no expiry check and no pruning: on
a non-empty cache they return the head and tail entries (and those entries
stay indexed, hence counted by `size`) with no condition on the current
time, so an expired entry remains observable through them. -/
theorem claim10_newest_oldest_no_expiry {c : LRUCache K V} (hc : Consistent c)
    {hd tl : LRUCacheNode K V}
    (hh : c.list.head? = some hd) (ht : c.list.getLast? = some tl) :
    c.newest = some (mapNodeToEntry hd) ∧
    c.oldest = some (mapNodeToEntry tl) ∧
    (hd.key, hd) ∈ c.lookupTable ∧ (tl.key, tl) ∈ c.lookupTable := by
  refine ⟨?_, ?_, ?_, ?_⟩
  · unfold LRUCache.newest
    rw [hh]
    rfl
  · unfold LRUCache.oldest
    rw [ht]
    rfl
  · exact hc.2.2.2 hd (List.mem_of_mem_head? hh)
  · refine hc.2.2.2 tl ?_
    obtain ⟨ys, hys⟩ := List.getLast?_eq_some_iff.mp ht
    rw [hys]
    simp

/-- Witness for C10 at a concrete cache whose single entry is expired at
the observation time (`created = 0`, expiry `5`, `now = 10`). -/
theorem claim10_newest_oldest_no_expiry_witness :
    (⟨5, some 5, [⟨0, 7, 0, some 5⟩],
        [(0, ⟨0, 7, 0, some 5⟩)]⟩ : LRUCache Nat Nat).newest = some ⟨0, 7⟩ ∧
    LRUCacheNode.isExpired (⟨0, 7, 0, some 5⟩ : LRUCacheNode Nat Nat) 10 = true :=
  ⟨(@claim10_newest_oldest_no_expiry Nat Nat _
      ⟨5, some 5, [⟨0, 7, 0, some 5⟩], [(0, ⟨0, 7, 0, some 5⟩)]⟩ (by decide)
      ⟨0, 7, 0, some 5⟩ ⟨0, 7, 0, some 5⟩ (by decide) (by decide)).1, by decide⟩

end LRUModel
